import Mathlib

/-!
Verification of the diff-parsing / anchor-resolution / validation / deduplication
core of the accessibility-fixer repository, shallowly embedded from
`app/diff_parser.py`, `app/semantic_anchor_resolver.py`, `app/pr_reviewer.py`
and `app/webhook_server.py`.  Strings are modelled as `List Char`; Python
dictionaries as insertion-ordered association lists; calls into Python's `re`
module on caller-supplied regular expressions are modelled by an explicit
oracle parameter (the source paths exercised by every concrete theorem below
never consult the oracle, because the relevant candidate strings contain no
regex metacharacter markers).
-/

set_option autoImplicit false
set_option maxRecDepth 100000

/-- Strings from the Python source, modelled as lists of characters. -/
abbrev Str := List Char

/-- Whitespace characters recognised by Python's `str.strip` / `str.split`. -/
def pyIsSpace (c : Char) : Bool :=
  c = ' ' || c = '\t' || c = '\n' || c = '\x0d' || c = '\x0b' || c = '\x0c'

/-- Python `str.strip()`: remove leading and trailing whitespace. -/
def pyStrip (s : Str) : Str :=
  ((s.dropWhile pyIsSpace).reverse.dropWhile pyIsSpace).reverse

/-- ASCII lower-casing of one character, as Python `str.lower` acts on ASCII. -/
def pyLowerChar (c : Char) : Char :=
  if 'A' ≤ c ∧ c ≤ 'Z' then Char.ofNat (c.toNat + 32) else c

/-- Python `str.lower()` on ASCII text. -/
def pyLower (s : Str) : Str := s.map pyLowerChar

/-- Python `str.split()` with no argument: split on whitespace runs,
dropping empty pieces. -/
def pySplitWS (s : Str) : List Str :=
  (s.foldr
    (fun c acc =>
      if pyIsSpace c then [] :: acc
      else match acc with
        | [] => [[c]]
        | piece :: rest => (c :: piece) :: rest)
    [[]]).filter (fun p => p ≠ [])

/-- Python `sep.join(pieces)` for a one-character separator. -/
def pyJoin (sep : Str) : List Str → Str
  | [] => []
  | [p] => p
  | p :: rest => p ++ sep ++ pyJoin sep rest

/-- Python `"".join(s.split())`: remove every whitespace character. -/
def pyJoinWSRemoved (s : Str) : Str := pyJoin [] (pySplitWS s)

/-- Python substring test `needle in hay`. -/
def isSub (needle : Str) : Str → Bool
  | [] => needle.isPrefixOf []
  | c :: rest => needle.isPrefixOf (c :: rest) || isSub needle rest

/-- Python `str.split()[0]` for a non-blank string: first whitespace-delimited
token (empty when the string is blank; the source guards the blank case). -/
def firstToken (s : Str) : Str :=
  (s.dropWhile pyIsSpace).takeWhile (fun c => !pyIsSpace c)

/-- Decimal digits of a natural number, most significant first. -/
def natDigits (n : Nat) : Str :=
  (Nat.toDigits 10 n)

/-- Python `str(i)` for an integer. -/
def intRepr (i : Int) : Str :=
  match i with
  | Int.ofNat n => natDigits n
  | Int.negSucc n => '-' :: natDigits (n + 1)

/-- Numeric value of a string of decimal digits (Python `int`). -/
def natOfDigits (s : Str) : Nat :=
  s.foldl (fun a c => a * 10 + (c.toNat - 48)) 0

/-- Python `os.path.basename`: the part after the last slash. -/
def pyBasename (p : Str) : Str :=
  (p.reverse.takeWhile (fun c => c ≠ '/')).reverse

/-- Python `pathlib.Path(p).suffix`: `name[i:]` for the last dot position `i`
of the basename when `0 < i < len(name) - 1`, else empty. -/
def pathSuffix (p : Str) : Str :=
  let name := pyBasename p
  if name.contains '.' then
    let afterDot := name.reverse.takeWhile (fun c => c ≠ '.')
    let i := name.length - 1 - afterDot.length
    if 0 < i ∧ afterDot ≠ [] then '.' :: afterDot.reverse else []
  else []

/-- Values appearing in Python dictionaries of this code base. -/
inductive PyVal where
  | none
  | str (s : Str)
  | int (n : Int)
  | bool (b : Bool)
deriving DecidableEq, Repr

/-- Python truthiness for the modelled values. -/
def pyTruthy : PyVal → Bool
  | PyVal.none => false
  | PyVal.str s => s ≠ []
  | PyVal.int n => n ≠ 0
  | PyVal.bool b => b

/-- Python `str(v)` for the modelled values. -/
def pyToStr : PyVal → Str
  | PyVal.none => "None".data
  | PyVal.str s => s
  | PyVal.int n => intRepr n
  | PyVal.bool b => if b then "True".data else "False".data

/-- Insertion-ordered dictionary, as Python `dict` with string keys. -/
abbrev PyDict (β : Type) := List (Str × β)

/-- Python `d.get(k)`: value of the first (unique) binding of `k`. -/
def dget {β : Type} : PyDict β → Str → Option β
  | [], _ => Option.none
  | (k, v) :: rest, key => if k = key then some v else dget rest key

/-- Python `d[k] = v`: update in place, or append a new binding. -/
def dset {β : Type} : PyDict β → Str → β → PyDict β
  | [], k, v => [(k, v)]
  | (k', v') :: rest, k, v =>
      if k' = k then (k, v) :: rest else (k', v') :: dset rest k v

/-- Python `k in d`. -/
def dmem {β : Type} (d : PyDict β) (k : Str) : Bool := (dget d k).isSome

/-- Issue objects are Python dicts from string keys to values. -/
abbrev Issue := PyDict PyVal

/-- Python `issue.get(k, "")` under the Issue data model (string-valued key). -/
def getStrD (d : Issue) (k : Str) : Str :=
  match dget d k with
  | some (PyVal.str s) => s
  | _ => []

/-- Python `issue.get(k, 0)` under the Issue data model (integer-valued key). -/
def getIntD (d : Issue) (k : Str) : Int :=
  match dget d k with
  | some (PyVal.int n) => n
  | _ => 0

/-- Well-typedness of an Issue dict: the keys the source reads hold values of
the type the source expects, so that the `getStrD`/`getIntD` accessors agree
with Python's untyped lookups. -/
def WFIssue (i : Issue) : Prop :=
  (∀ v, dget i "file".data = some v → ∃ s, v = PyVal.str s) ∧
  (∀ v, dget i "line".data = some v → ∃ n, v = PyVal.int n) ∧
  (∀ v, dget i "title".data = some v → ∃ s, v = PyVal.str s) ∧
  (∀ v, dget i "description".data = some v → ∃ s, v = PyVal.str s) ∧
  (∀ v, dget i "wcag_sc".data = some v → ∃ s, v = PyVal.str s)

/-! ## DiffParser (`app/diff_parser.py`) -/

/-- `DiffParser._normalize_diff`: replace CRLF by LF then drop stray CR, which
removes exactly the carriage-return characters. -/
def normalize_diff (s : Str) : Str := s.filter (fun c => c ≠ '\x0d')

/-- Python `text.split("\n")`. -/
def splitLines (s : Str) : List Str :=
  s.foldr
    (fun c acc =>
      if c = '\n' then [] :: acc
      else match acc with
        | [] => [[c]]
        | l :: ls => (c :: l) :: ls)
    [[]]

/-- Attempt of the regex `\sb/(\S+)` at one position: the characters after the
whitespace must be `b/` followed by at least one non-whitespace character;
the group is the maximal non-whitespace run. -/
def tryB (rest : Str) : Option Str :=
  match rest with
  | 'b' :: '/' :: tail =>
      let g := tail.takeWhile (fun c => !pyIsSpace c)
      if g = [] then Option.none else some g
  | _ => Option.none

/-- `re.search(r"\sb/(\S+)", line)`: leftmost position whose whitespace
character is followed by a full match, returning the captured group. -/
def findB : Str → Option Str
  | [] => Option.none
  | c :: rest =>
      if pyIsSpace c then
        match tryB rest with
        | some g => some g
        | Option.none => findB rest
      else findB rest

/-- State of the `parse_diff` loop. -/
structure PDState where
  dict : PyDict Str
  cur : Option Str
  acc : List Str

/-- Remove trailing blank lines (Python `line.strip() == ""`). -/
def dropTrailingBlank (ls : List Str) : List Str :=
  (ls.reverse.dropWhile (fun l => pyStrip l = [])).reverse

/-- Flush the section being accumulated into the dictionary. -/
def pdFlush (s : PDState) : PyDict Str :=
  match s.cur with
  | some f =>
      if f ≠ [] ∧ s.acc ≠ [] then
        dset s.dict f (pyJoin ['\n'] (dropTrailingBlank s.acc))
      else s.dict
  | Option.none => s.dict

/-- One line of the `parse_diff` loop. -/
def pdStep (s : PDState) (line : Str) : PDState :=
  if "diff --git ".data.isPrefixOf line then
    let d := pdFlush s
    match findB line with
    | some f => { dict := d, cur := some f, acc := [line] }
    | Option.none => { dict := d, cur := Option.none, acc := [] }
  else
    match s.cur with
    | some _ => { s with acc := s.acc ++ [line] }
    | Option.none => s

/-- `DiffParser.parse_diff`: split a unified diff into per-file sections keyed
by the destination path.  The final flush does not strip trailing blank
lines (the source strips them only when the next header arrives). -/
def parse_diff (text : Str) : PyDict Str :=
  let s := (splitLines (normalize_diff text)).foldl pdStep ⟨[], Option.none, []⟩
  match s.cur with
  | some f =>
      if f ≠ [] ∧ s.acc ≠ [] then dset s.dict f (pyJoin ['\n'] s.acc) else s.dict
  | Option.none => s.dict

/-- Suffix-stage candidate test of `filter_diff_for_files`: slash-boundary
suffix either way, or plain string suffix either way provided one of the two
paths contains a slash. -/
def suffixCand (fp dp : Str) : Bool :=
  (('/' :: fp).isSuffixOf dp || ('/' :: dp).isSuffixOf fp) ||
    ((fp.isSuffixOf dp || dp.isSuffixOf fp) && (fp.contains '/' || dp.contains '/'))

/-- Path resolution of `filter_diff_for_files` for one requested path:
exact match, else unique suffix match (ambiguity yields nothing and the
basename stage is not reached), else unique basename match. -/
def matchPath (parsed : PyDict Str) (fp : Str) : Option Str :=
  if dmem parsed fp then some fp
  else
    let dps := parsed.map Prod.fst
    match dps.filter (fun dp => suffixCand fp dp) with
    | [dp] => some dp
    | _ :: _ :: _ => Option.none
    | [] =>
        match dps.filter (fun dp => pyBasename dp = pyBasename fp) with
        | [dp] => some dp
        | _ => Option.none

/-- `DiffParser.filter_diff_for_files`. -/
def filter_diff_for_files (full_diff : Str) (file_paths : List Str) : Str :=
  if file_paths = [] then []
  else
    let parsed := parse_diff (normalize_diff full_diff)
    pyJoin ['\n']
      (file_paths.filterMap (fun fp => (matchPath parsed fp).bind (dget parsed)))

/-- Digits-first split helper for the hunk-header parse. -/
def eatDigits (s : Str) : Option (Str × Str) :=
  let d := s.takeWhile Char.isDigit
  if d = [] then Option.none else some (d, s.dropWhile Char.isDigit)

/-- Optional `,\d+` group: consumed only when the comma is followed by a
digit, exactly as the regex `(?:,\d+)?` backtracks. -/
def eatOptCommaDigits (s : Str) : Str × Option Str :=
  match s with
  | ',' :: rest =>
      match eatDigits rest with
      | some (d, r) => (r, some d)
      | Option.none => (',' :: rest, Option.none)
  | _ => (s, Option.none)

/-- `re.match(r"^@@ -\d+(?:,\d+)? \+(\d+)(?:,\d+)? @@", line)`, returning the
captured new-start number. -/
def parseHunkNew (line : Str) : Option Int :=
  match line with
  | '@' :: '@' :: ' ' :: '-' :: r1 =>
      match eatDigits r1 with
      | Option.none => Option.none
      | some (_, r2) =>
          let r3 := (eatOptCommaDigits r2).1
          match r3 with
          | ' ' :: '+' :: r4 =>
              match eatDigits r4 with
              | Option.none => Option.none
              | some (d2, r5) =>
                  let r6 := (eatOptCommaDigits r5).1
                  match r6 with
                  | ' ' :: '@' :: '@' :: _ => some (Int.ofNat (natOfDigits d2))
                  | _ => Option.none
          | _ => Option.none
  | _ => Option.none

/-- State of the `extract_commentable_lines` loop. -/
structure ECLState where
  dict : PyDict (List Int)
  cur : Option Str
  line : Int
  inHunk : Bool

/-- Append to the current file's commentable list (the current file always has
an entry, created by the `+++ b/` branch that set it). -/
def dAppend (d : PyDict (List Int)) (f : Str) (n : Int) : PyDict (List Int) :=
  match dget d f with
  | some l => dset d f (l ++ [n])
  | Option.none => dset d f [n]

/-- Truthiness of the loop's `current_file` variable (`None` and the empty
string are both falsy in the `and current_file` guards). -/
def curTruthy : Option Str → Bool
  | some f => !f.isEmpty
  | Option.none => false

/-- One line of the `extract_commentable_lines` loop. -/
def eclStep (s : ECLState) (l : Str) : ECLState :=
  if "+++ b/".data.isPrefixOf l then
    let f := firstToken (l.drop 6)
    { dict := dset s.dict f [], cur := some f, line := s.line, inHunk := false }
  else
    match parseHunkNew l, curTruthy s.cur, s.cur with
    | some n, true, _ => { s with line := n, inHunk := true }
    | _, _, some f =>
        if s.inHunk && curTruthy s.cur then
          if "+".data.isPrefixOf l && !"+++".data.isPrefixOf l then
            { s with dict := dAppend s.dict f s.line, line := s.line + 1 }
          else if " ".data.isPrefixOf l then
            { s with dict := dAppend s.dict f s.line, line := s.line + 1 }
          else if "-".data.isPrefixOf l then s
          else if !l.isEmpty && !"\\".data.isPrefixOf l then
            { s with inHunk := false }
          else s
        else s
    | _, _, Option.none => s

/-- `DiffParser.extract_commentable_lines`: per-file list of new-side line
numbers of added and context body lines. -/
def extract_commentable_lines (text : Str) : PyDict (List Int) :=
  ((splitLines (normalize_diff text)).foldl eclStep ⟨[], Option.none, 0, false⟩).dict

/-- `DiffParser.find_nearest_commentable_line`: target itself when commentable,
else the closest line within `maxd` (first of equal distances). -/
def find_nearest_commentable_line (target : Int) (ls : List Int) (maxd : Int) :
    Option Int :=
  if ls = [] then Option.none
  else if target ∈ ls then some target
  else
    (ls.foldl
      (fun best l =>
        let d := |l - target|
        match best with
        | Option.none => if d ≤ maxd then some (d, l) else Option.none
        | some (md, b) => if d < md ∧ d ≤ maxd then some (d, l) else some (md, b))
      Option.none).map Prod.snd

/-! ## SemanticAnchorResolver (`app/semantic_anchor_resolver.py`) -/

/-- Helper turning literal pattern strings into character lists. -/
def pats (l : List String) : List Str := l.map String.data

/-- `SemanticAnchorResolver.COMPOSE_PATTERNS`. -/
def COMPOSE_PATTERNS : List Str := pats
  ["\\bSlider\\s*\\(", "\\bSwitch\\s*\\(", "\\bButton\\s*\\(", "\\bText\\s*\\(",
   "\\bTextField\\s*\\(", "\\bOutlinedTextField\\s*\\(", "\\bIcon\\s*\\(",
   "\\.clickable\\s*[\x7b\\(]", "\\.semantics\\s*[\x7b\\(]", "\\bModifier\\."]

/-- `SemanticAnchorResolver.ANDROID_XML_PATTERNS`. -/
def ANDROID_XML_PATTERNS : List Str := pats
  ["android:contentDescription", "android:hint", "android:text\\s*=",
   "android:labelFor", "<Button\\b", "<ImageView\\b", "<TextView\\b",
   "<EditText\\b", "<Switch\\b", "<CheckBox\\b", "<RadioButton\\b",
   "<Spinner\\b", "<SeekBar\\b"]

/-- `SemanticAnchorResolver.SWIFTUI_PATTERNS`. -/
def SWIFTUI_PATTERNS : List Str := pats
  ["\\bText\\s*\\(", "\\bButton\\s*\\(", "\\bToggle\\s*\\(", "\\bSlider\\s*\\(",
   "\\bTextField\\s*\\(", "\\bSecureField\\s*\\(", "\\.accessibilityLabel\\s*\\(",
   "\\.accessibilityHint\\s*\\(", "\\.accessibilityValue\\s*\\(",
   "\\.accessibilityAddTraits\\s*\\("]

/-- `SemanticAnchorResolver.UIKIT_PATTERNS`. -/
def UIKIT_PATTERNS : List Str := pats
  ["\\bUIButton\\b", "\\bUILabel\\b", "\\bUIImageView\\b", "\\bUITextField\\b",
   "\\bUISwitch\\b", "\\bUISlider\\b", "\\.accessibilityLabel\\s*=",
   "\\.accessibilityHint\\s*=", "\\.accessibilityTraits\\s*="]

/-- `SemanticAnchorResolver.REACT_WEB_PATTERNS`. -/
def REACT_WEB_PATTERNS : List Str := pats
  ["<button\\b", "<input\\b", "<img\\b", "<label\\b", "<select\\b",
   "<textarea\\b", "aria-label\\s*=", "aria-labelledby\\s*=",
   "aria-describedby\\s*=", "role\\s*=", "alt\\s*=", "onClick\\s*="]

/-- `SemanticAnchorResolver.ISSUE_KEYWORD_PATTERNS`, in dict insertion order. -/
def ISSUE_KEYWORD_PATTERNS : List (Str × List Str) :=
  [("slider".data, pats ["\\bSlider\\s*\\(", "<SeekBar\\b", "\\bUISlider\\b",
      "<input[^>]*type\\s*=\\s*[\"\x27]range"]),
   ("switch".data, pats ["\\bSwitch\\s*\\(", "<Switch\\b", "\\bUISwitch\\b",
      "<input[^>]*type\\s*=\\s*[\"\x27]checkbox"]),
   ("toggle".data, pats ["\\bToggle\\s*\\(", "\\bSwitch\\s*\\(", "<Switch\\b"]),
   ("button".data, pats ["\\bButton\\s*\\(", "<Button\\b", "\\bUIButton\\b",
      "<button\\b"]),
   ("text".data, pats ["\\bText\\s*\\(", "<TextView\\b", "\\bUILabel\\b",
      "<label\\b"]),
   ("textfield".data, pats ["\\bTextField\\s*\\(", "\\bOutlinedTextField\\s*\\(",
      "<EditText\\b", "\\bUITextField\\b", "<input\\b"]),
   ("image".data, pats ["<ImageView\\b", "\\bUIImageView\\b", "<img\\b",
      "\\bIcon\\s*\\("]),
   ("checkbox".data, pats ["<CheckBox\\b",
      "<input[^>]*type\\s*=\\s*[\"\x27]checkbox"]),
   ("radio".data, pats ["<RadioButton\\b",
      "<input[^>]*type\\s*=\\s*[\"\x27]radio"]),
   ("label".data, pats ["accessibilityLabel", "android:contentDescription",
      "aria-label", "alt\\s*="]),
   ("hint".data, pats ["accessibilityHint", "android:hint", "aria-describedby"]),
   ("contentdescription".data, pats ["android:contentDescription",
      "contentDescription\\s*="])]

/-- Oracle for Python's `re` module on caller-supplied patterns: `search` and
`searchCI` model `re.search` without and with `re.IGNORECASE`, `isValid`
models whether compiling the pattern raises `re.error`, and `findRoleNames`
models the `finditer` loop of the capitalized-UI-role regex (returning the
captured element names in order). -/
structure ReOracle where
  search : Str → Str → Bool
  searchCI : Str → Str → Bool
  isValid : Str → Bool
  findRoleNames : Str → List Str

/-- Marker substrings whose presence makes the source treat a candidate as a
regex pattern instead of a plain substring. -/
def hasReChar (cand : Str) : Bool :=
  isSub "\\b".data cand || isSub "\\s".data cand || isSub "\\(".data cand ||
    isSub "[".data cand || isSub "^".data cand || isSub "$".data cand ||
    isSub ".".data cand || isSub "*".data cand

/-- Match of one anchor candidate against one line text: regex candidates go
through the `re` oracle (an invalid pattern raises `re.error`, caught as a
skip), plain candidates use case-sensitive then case-insensitive substring
tests. -/
def candMatch (o : ReOracle) (cand : Str) (txt : Str) : Bool :=
  if hasReChar cand then
    if o.isValid cand then o.search cand txt || o.searchCI cand txt else false
  else
    isSub cand txt || isSub (pyLower cand) (pyLower txt)

/-- First candidate matching a line text (the inner `for candidate` loop with
its `break`). -/
def firstCand (o : ReOracle) (cands : List Str) (txt : Str) : Option Str :=
  cands.find? (fun c => candMatch o c txt)

/-- `SemanticAnchorResolver.extract_anchor_candidates`. -/
def extract_anchor_candidates (o : ReOracle) (issue : Issue)
    (file_extension : Option Str) : List Str :=
  let v1 := (dget issue "anchor_text".data).getD PyVal.none
  let explicitAnchor := if pyTruthy v1 then v1 else (dget issue "anchor".data).getD PyVal.none
  let c1 := if pyTruthy explicitAnchor then [pyToStr explicitAnchor] else []
  let title := pyLower (getStrD issue "title".data)
  let description := pyLower (getStrD issue "description".data)
  let combined := title ++ " ".data ++ description
  let c2 := ISSUE_KEYWORD_PATTERNS.foldl
    (fun acc kp => if isSub kp.1 combined then acc ++ kp.2 else acc) []
  let rawText := getStrD issue "title".data ++ " ".data ++
    getStrD issue "description".data
  let c3 := (o.findRoleNames rawText).foldl
    (fun acc name => acc ++ [name, name ++ "(".data, "<".data ++ name]) []
  let c4 := match file_extension with
    | Option.none => []
    | some e =>
        let ext := pyLower e
        if ext = ".kt".data ∨ ext = ".kts".data then COMPOSE_PATTERNS
        else if ext = ".xml".data then ANDROID_XML_PATTERNS
        else if ext = ".swift".data then SWIFTUI_PATTERNS ++ UIKIT_PATTERNS
        else if ext = ".tsx".data ∨ ext = ".jsx".data ∨ ext = ".ts".data ∨
            ext = ".js".data ∨ ext = ".html".data ∨ ext = ".css".data then
          REACT_WEB_PATTERNS
        else []
  c1 ++ c2 ++ c3 ++ c4

/-- Per-file texts of commentable lines, keyed by new-side line number. -/
abbrev LineTexts := List (Int × Str)

/-- Lookup in a line-number-keyed dict. -/
def iget : LineTexts → Int → Option Str
  | [], _ => Option.none
  | (k, v) :: rest, key => if k = key then some v else iget rest key

/-- Update-or-append in a line-number-keyed dict. -/
def iset : LineTexts → Int → Str → LineTexts
  | [], k, v => [(k, v)]
  | (k', v') :: rest, k, v =>
      if k' = k then (k, v) :: rest else (k', v') :: iset rest k v

/-- State of the `extract_commentable_line_texts` loop. -/
structure ECTState where
  res : PyDict LineTexts
  cur : Option Str
  line : Int
  inHunk : Bool

/-- Store a commentable line's text for the current file. -/
def ectStore (res : PyDict LineTexts) (f : Str) (n : Int) (txt : Str) :
    PyDict LineTexts :=
  match dget res f with
  | some m => dset res f (iset m n txt)
  | Option.none => dset res f [(n, txt)]

/-- One line of the `extract_commentable_line_texts` loop.  Unlike
`extract_commentable_lines`, the file key is the raw remainder after
`+++ b/` (no whitespace split), and body lines are processed only when the
current file has an entry in the commentable-lines dict. -/
def ectStep (cl : PyDict (List Int)) (s : ECTState) (l : Str) : ECTState :=
  if "+++ b/".data.isPrefixOf l then
    let f := l.drop 6
    { res := if dmem cl f then dset s.res f [] else s.res,
      cur := some f, line := s.line, inHunk := false }
  else
    match parseHunkNew l, curTruthy s.cur, s.cur with
    | some n, true, _ => { s with line := n, inHunk := true }
    | _, _, some f =>
        if s.inHunk && curTruthy s.cur && dmem cl f then
          if "+".data.isPrefixOf l && !"+++".data.isPrefixOf l then
            { s with
              res := if s.line ∈ (dget cl f).getD [] then
                  ectStore s.res f s.line (l.drop 1) else s.res,
              line := s.line + 1 }
          else if " ".data.isPrefixOf l then
            { s with
              res := if s.line ∈ (dget cl f).getD [] then
                  ectStore s.res f s.line (l.drop 1) else s.res,
              line := s.line + 1 }
          else s
        else s
    | _, _, Option.none => s

/-- `SemanticAnchorResolver.extract_commentable_line_texts`. -/
def extract_commentable_line_texts (text : Str) (cl : PyDict (List Int)) :
    PyDict LineTexts :=
  ((splitLines text).foldl (ectStep cl) ⟨[], Option.none, 0, false⟩).res

/-- First element minimising an integer measure (Python's stable sort followed
by taking the head). -/
def pickMinBy {α : Type} (f : α → Int) (l : List α) : Option α :=
  l.foldl
    (fun acc x =>
      match acc with
      | Option.none => some x
      | some y => if f x < f y then some x else some y)
    Option.none

/-- Choice among the collected matches of `resolve_anchor_line`: a single
match wins outright; several matches are decided by proximity to the
proposed line (else the fallback line), or by lowest line number when no
positive reference line exists. -/
def chooseMatch (issue : Issue) (fallback_line : Option Int) :
    List (Int × Str × Str) → Option Int × Option Str
  | [] => (Option.none, Option.none)
  | [m] => (some m.1, some m.2.1)
  | ms =>
      let a := getIntD issue "line".data
      let ref := if a ≠ 0 then a
        else match fallback_line with
          | some b => if b ≠ 0 then b else 0
          | Option.none => 0
      if ref > 0 then
        match pickMinBy (fun (m : Int × Str × Str) => |m.1 - ref|) ms with
        | some m => (some m.1, some m.2.1)
        | Option.none => (Option.none, Option.none)
      else
        match pickMinBy (fun (m : Int × Str × Str) => m.1) ms with
        | some m => (some m.1, some m.2.1)
        | Option.none => (Option.none, Option.none)

/-- Anchor candidate list of `resolve_anchor_line`: the explicit anchor
(`anchor_text`, else `anchor`) alone when truthy, else the candidates
inferred from issue metadata and file extension. -/
def anchorCandidates (o : ReOracle) (issue : Issue)
    (file_extension : Option Str) : List Str :=
  let v1 := (dget issue "anchor_text".data).getD PyVal.none
  let explicitAnchor :=
    if pyTruthy v1 then v1 else (dget issue "anchor".data).getD PyVal.none
  if pyTruthy explicitAnchor then [pyToStr explicitAnchor]
  else extract_anchor_candidates o issue file_extension

/-- `SemanticAnchorResolver.resolve_anchor_line`: search the explicit anchor
(or inferred candidates) in the commentable line texts, then pick the match
closest to the proposed/fallback line. -/
def resolve_anchor_line (o : ReOracle) (issue : Issue)
    (right_line_to_text : LineTexts) (fallback_line : Option Int)
    (file_extension : Option Str) : Option Int × Option Str :=
  if right_line_to_text = [] then (Option.none, Option.none)
  else if anchorCandidates o issue file_extension = [] then
    (Option.none, Option.none)
  else
    chooseMatch issue fallback_line
      (right_line_to_text.filterMap
        (fun p =>
          if p.2 = [] then Option.none
          else (firstCand o (anchorCandidates o issue file_extension) p.2).map
            (fun c => (p.1, pyStrip p.2, c))))

/-! ## ValidationPipeline (`validate_issues_in_batch` in `app/diff_parser.py`) -/

/-- Drop record observable through the source's "Dropping issue" logging:
(file, proposed line, reason code). -/
abbrev DropRec := Str × Int × Str

/-- Validation of one issue against the current batch, mirroring one
iteration of the `validate_issues_in_batch` loop: returns the kept
(possibly line-rewritten) issue, or no issue plus the drop record. -/
def processOne (o : ReOracle) (batch : List Str) (cl : PyDict (List Int))
    (lt : PyDict LineTexts) (diffT : Bool) (issue : Issue) :
    Option Issue × List DropRec :=
  let fp := getStrD issue "file".data
  let line := getIntD issue "line".data
  if fp ∉ batch then (Option.none, [(fp, line, "file_not_in_batch".data)])
  else if line ≤ 0 then (Option.none, [(fp, line, "invalid_line_number".data)])
  else if (dget cl fp).getD [] = [] then
    (Option.none, [(fp, line, "no_commentable_lines_for_file".data)])
  else
    let fc := (dget cl fp).getD []
    if line ∈ fc then (some issue, [])
    else
      let r :=
        if diffT && dmem lt fp then
          resolve_anchor_line o issue ((dget lt fp).getD []) (some line)
            (some (pathSuffix fp))
        else (Option.none, Option.none)
      if r.1.getD 0 ≠ 0 then
        (some (dset (dset issue "line".data (PyVal.int (r.1.getD 0)))
            "_anchor_matched_text".data
            (match r.2 with
             | some t => PyVal.str t
             | Option.none => PyVal.none)), [])
      else
        let anchorAttempted := diffT && dmem lt fp
        let nr := (find_nearest_commentable_line line fc 10).getD 0
        if nr ≠ 0 then (some (dset issue "line".data (PyVal.int nr)), [])
        else
          (Option.none,
           [(fp, line,
             if anchorAttempted then "nearest_commentable_none".data
             else "line_not_commentable".data)])

/-- The validation loop over the issue list. -/
def validateAux (o : ReOracle) (batch : List Str) (cl : PyDict (List Int))
    (lt : PyDict LineTexts) (diffT : Bool) : List Issue → List Issue × List DropRec
  | [] => ([], [])
  | i :: rest =>
      let r := processOne o batch cl lt diffT i
      let t := validateAux o batch cl lt diffT rest
      ((match r.1 with
        | some x => x :: t.1
        | Option.none => t.1), r.2 ++ t.2)

/-- `validate_issues_in_batch`: scope issues to the batch, resolve
non-commentable lines through the anchor resolver with a
nearest-commentable fallback, and record drop reasons. -/
def validate_issues_in_batch (o : ReOracle) (issues : List Issue)
    (batch_files : List Str) (commentable_lines : PyDict (List Int))
    (diff_text : Option Str) : List Issue × List DropRec :=
  let diffT := match diff_text with
    | some d => !d.isEmpty
    | Option.none => false
  let lt := if diffT then
      extract_commentable_line_texts (diff_text.getD []) commentable_lines
    else []
  validateAux o batch_files commentable_lines lt diffT issues

/-! ## FingerprintEngine (`_compute_issue_fingerprint` in `app/pr_reviewer.py`)

The source hashes the fingerprint string with `hashlib.md5`; MD5 is
implemented here in full (RFC 1321) over the UTF-8 bytes. -/

/-- Reduction modulo 2^32. -/
def m32 (n : Nat) : Nat := n % 4294967296

/-- 32-bit addition. -/
def madd (a b : Nat) : Nat := (a + b) % 4294967296

/-- 32-bit left rotation. -/
def rotl (x n : Nat) : Nat := ((x <<< n) % 4294967296) ||| (x >>> (32 - n))

/-- 32-bit bitwise complement. -/
def mnot (x : Nat) : Nat := 4294967295 ^^^ x

/-- MD5 sine-derived constant table. -/
def md5K : List Nat :=
  [3614090360, 3905402710, 606105819, 3250441966, 4118548399, 1200080426, 2821735955, 4249261313,
   1770035416, 2336552879, 4294925233, 2304563134, 1804603682, 4254626195, 2792965006, 1236535329,
   4129170786, 3225465664, 643717713, 3921069994, 3593408605, 38016083, 3634488961, 3889429448,
   568446438, 3275163606, 4107603335, 1163531501, 2850285829, 4243563512, 1735328473, 2368359562,
   4294588738, 2272392833, 1839030562, 4259657740, 2763975236, 1272893353, 4139469664, 3200236656,
   681279174, 3936430074, 3572445317, 76029189, 3654602809, 3873151461, 530742520, 3299628645,
   4096336452, 1126891415, 2878612391, 4237533241, 1700485571, 2399980690, 4293915773, 2240044497,
   1873313359, 4264355552, 2734768916, 1309151649, 4149444226, 3174756917, 718787259, 3951481745]

/-- MD5 per-round shift amounts. -/
def md5S : List Nat :=
  [7, 12, 17, 22, 7, 12, 17, 22, 7, 12, 17, 22, 7, 12, 17, 22,
   5, 9, 14, 20, 5, 9, 14, 20, 5, 9, 14, 20, 5, 9, 14, 20,
   4, 11, 16, 23, 4, 11, 16, 23, 4, 11, 16, 23, 4, 11, 16, 23,
   6, 10, 15, 21, 6, 10, 15, 21, 6, 10, 15, 21, 6, 10, 15, 21]

/-- MD5 round function. -/
def md5F (i b c d : Nat) : Nat :=
  if i < 16 then (b &&& c) ||| (mnot b &&& d)
  else if i < 32 then (d &&& b) ||| (mnot d &&& c)
  else if i < 48 then b ^^^ c ^^^ d
  else c ^^^ (b ||| mnot d)

/-- MD5 message-word index schedule. -/
def md5G (i : Nat) : Nat :=
  if i < 16 then i
  else if i < 32 then (5 * i + 1) % 16
  else if i < 48 then (3 * i + 5) % 16
  else (7 * i) % 16

/-- Little-endian 32-bit word `g` of a 64-byte block. -/
def md5Word (block : List Nat) (g : Nat) : Nat :=
  block.getD (4 * g) 0 + 256 * block.getD (4 * g + 1) 0 +
    65536 * block.getD (4 * g + 2) 0 + 16777216 * block.getD (4 * g + 3) 0

/-- One MD5 round on the register quadruple. -/
def md5Round (block : List Nat) (regs : Nat × Nat × Nat × Nat) (i : Nat) :
    Nat × Nat × Nat × Nat :=
  let a := regs.1
  let b := regs.2.1
  let c := regs.2.2.1
  let d := regs.2.2.2
  let f := madd (madd (madd (md5F i b c d) a) (md5K.getD i 0))
    (md5Word block (md5G i))
  (d, madd b (rotl f (md5S.getD i 0)), b, c)

/-- Process one 64-byte block. -/
def md5Block (regs : Nat × Nat × Nat × Nat) (block : List Nat) :
    Nat × Nat × Nat × Nat :=
  let r := (List.range 64).foldl (md5Round block) regs
  (madd regs.1 r.1, madd regs.2.1 r.2.1, madd regs.2.2.1 r.2.2.1,
   madd regs.2.2.2 r.2.2.2)

/-- Little-endian byte expansion of a value into `k` bytes. -/
def leBytes : Nat → Nat → List Nat
  | 0, _ => []
  | k + 1, v => (v % 256) :: leBytes k (v / 256)

/-- MD5 padding: `0x80`, zeros to 56 mod 64, then the 64-bit bit length. -/
def md5Pad (msg : List Nat) : List Nat :=
  let len := msg.length
  let zeros := (119 - (len % 64)) % 64
  msg ++ [128] ++ List.replicate zeros 0 ++
    leBytes 8 ((len * 8) % 18446744073709551616)

/-- Run the block loop over the padded message. -/
def md5Digest (msg : List Nat) : Nat × Nat × Nat × Nat :=
  ((md5Pad msg).foldl
    (fun st b =>
      let buf := st.1 ++ [b]
      if buf.length = 64 then ([], md5Block st.2 buf) else (buf, st.2))
    (([] : List Nat), (1732584193, 4023233417, 2562383102, 271733878))).2

/-- Lowercase hex character of a value below 16. -/
def hexChar (n : Nat) : Char :=
  if n < 10 then Char.ofNat (48 + n) else Char.ofNat (87 + n)

/-- Two-character hex form of one byte. -/
def byteHex (b : Nat) : Str := [hexChar (b / 16), hexChar (b % 16)]

/-- `hashlib.md5(bytes).hexdigest()`. -/
def md5Hex (msg : List Nat) : Str :=
  let r := md5Digest msg
  ((leBytes 4 r.1 ++ leBytes 4 r.2.1 ++ leBytes 4 r.2.2.1 ++ leBytes 4 r.2.2.2).map
    byteHex).foldr (fun h acc => h ++ acc) []

/-- UTF-8 bytes of one character (Python `str.encode()`). -/
def utf8Char (c : Char) : List Nat :=
  let n := c.toNat
  if n < 128 then [n]
  else if n < 2048 then [192 + n / 64, 128 + n % 64]
  else if n < 65536 then [224 + n / 4096, 128 + (n / 64) % 64, 128 + n % 64]
  else [240 + n / 262144, 128 + (n / 4096) % 64, 128 + (n / 64) % 64, 128 + n % 64]

/-- UTF-8 bytes of a string. -/
def utf8Bytes (s : Str) : List Nat :=
  s.foldr (fun c acc => utf8Char c ++ acc) []

/-- Normalized file-path component of the fingerprint. -/
def fpFile (issue : Issue) : Str := pyStrip (getStrD issue "file".data)

/-- Line-bucket component: the line floored to a multiple of five. -/
def fpBucket (issue : Issue) : Int := (getIntD issue "line".data).fdiv 5 * 5

/-- Normalized WCAG-code component: stripped, lowercased, first code before a
semicolon, spaces removed. -/
def fpWcag (issue : Issue) : Str :=
  let w := pyLower (pyStrip (getStrD issue "wcag_sc".data))
  let w := if w.contains ';' then pyStrip (w.takeWhile (fun c => c ≠ ';')) else w
  w.filter (fun c => c ≠ ' ')

/-- Normalized title component: stripped, lowercased, whitespace-collapsed,
truncated to fifty characters. -/
def fpTitle (issue : Issue) : Str :=
  (pyJoin [' '] (pySplitWS (pyLower (pyStrip (getStrD issue "title".data))))).take 50

/-- Anchor-signature component: matched anchor text preferred over the
explicit anchor, whitespace removed, lowercased, truncated to forty
characters; empty when neither is available. -/
def fpAnchorSig (issue : Issue) : Str :=
  if pyTruthy ((dget issue "_anchor_matched_text".data).getD PyVal.none) then
    (pyLower (pyJoinWSRemoved
      (pyStrip (pyToStr ((dget issue "_anchor_matched_text".data).getD PyVal.none))))).take 40
  else if pyTruthy ((dget issue "anchor_text".data).getD PyVal.none) then
    (pyLower (pyJoinWSRemoved
      (pyStrip (pyToStr ((dget issue "anchor_text".data).getD PyVal.none))))).take 40
  else []

/-- The pre-hash fingerprint string `file|bucket|wcag|title[|anchor]`. -/
def fingerprintStr (issue : Issue) : Str :=
  let base := fpFile issue ++ "|".data ++ intRepr (fpBucket issue) ++ "|".data ++
    fpWcag issue ++ "|".data ++ fpTitle issue
  let sig := fpAnchorSig issue
  if sig ≠ [] then base ++ "|".data ++ sig else base

/-- `PRReviewer._compute_issue_fingerprint`: MD5 hex digest of the
fingerprint string. -/
def compute_issue_fingerprint (issue : Issue) : Str :=
  md5Hex (utf8Bytes (fingerprintStr issue))

/-! ## ProximitySuppression (`is_near_existing_comment` in `app/webhook_server.py`) -/

/-- Entries of the caller-supplied `posted_locations` collection: dictionaries,
tuples/lists, or values of any other shape. -/
inductive CEntry where
  | dict (d : PyDict PyVal)
  | tup (vs : List PyVal)
  | other
deriving DecidableEq

/-- The `matched_entry` dictionary returned on suppression. -/
structure NearMatch where
  file : PyVal
  line : Int
  distance : Int
  snippet : Str
deriving DecidableEq

/-- Python `==` between a value and a string (values of other types compare
unequal without raising). -/
def pyEqStr (v : PyVal) (s : Str) : Bool :=
  match v with
  | PyVal.str t => t = s
  | _ => false

/-- Coercion used by `abs(existing_line - line)`: integers and booleans are
numbers, anything else raises `TypeError` (caught by the loop). -/
def toIntE : PyVal → Except Unit Int
  | PyVal.int n => Except.ok n
  | PyVal.bool b => Except.ok (if b then 1 else 0)
  | _ => Except.error ()

/-- Coercion used by the `.strip()` / `.split()` calls on the stored snippet:
a non-string raises `AttributeError` (caught by the loop). -/
def toStrE : PyVal → Except Unit Str
  | PyVal.str s => Except.ok s
  | _ => Except.error ()

/-- Issue-identity title, computed once before the loop:
`str(issue.get("title","")).strip()[:50].lower()` when the issue argument is
truthy, else empty. -/
def nearIssueTitle (issue : Option Issue) : Str :=
  match issue with
  | some d =>
      if d ≠ [] then
        pyLower ((pyStrip (pyToStr ((dget d "title".data).getD (PyVal.str [])))).take 50)
      else []
  | Option.none => []

/-- Issue-identity anchor signature: matched anchor text preferred over the
explicit anchor, stripped and lowercased. -/
def nearIssueAnchor (issue : Option Issue) : Str :=
  match issue with
  | some d =>
      if d ≠ [] then
        let m := (dget d "_anchor_matched_text".data).getD PyVal.none
        if pyTruthy m then pyLower (pyStrip (pyToStr m))
        else
          let a := (dget d "anchor_text".data).getD PyVal.none
          if pyTruthy a then pyLower (pyStrip (pyToStr a)) else []
      else []
  | Option.none => []

/-- Shape parsing of one posted-location entry: the usable file value, line
value and snippet value, or nothing for entries the loop skips up front. -/
def parseEntry : CEntry → Option (PyVal × PyVal × PyVal)
  | CEntry.dict d =>
      let v1 := (dget d "file".data).getD PyVal.none
      let f := if pyTruthy v1 then v1 else (dget d "path".data).getD PyVal.none
      let l := (dget d "line".data).getD PyVal.none
      let snip := (dget d "snippet".data).getD (PyVal.str [])
      if !pyTruthy f || !pyTruthy l then Option.none else some (f, l, snip)
  | CEntry.tup vs =>
      if vs.length ≥ 2 then
        some (vs.getD 0 PyVal.none, vs.getD 1 PyVal.none,
          if vs.length ≥ 3 then
            (if pyTruthy (vs.getD 2 PyVal.none) then
                PyVal.str (pyToStr (vs.getD 2 PyVal.none))
             else PyVal.str [])
          else PyVal.str [])
      else Option.none
  | CEntry.other => Option.none

/-- Leading `[a-z0-9_]` run of a normalized anchor (the keyword regex
`^([a-z0-9_]+)`); empty when the regex does not match. -/
def anchorKeyword (s : Str) : Str :=
  s.takeWhile (fun c => ('a' ≤ c && c ≤ 'z') || ('0' ≤ c && c ≤ '9') || c = '_')

/-- Body of the suppression loop for one entry, with `Except` marking the
points where Python raises a caught exception. -/
def entryCheckE (fp : Str) (line : Int) (ititle ianchor : Str) (hasId : Bool)
    (thr : Int) (e : CEntry) : Except Unit (Option (Str × NearMatch)) :=
  match parseEntry e with
  | Option.none => Except.ok Option.none
  | some (f, lv, snipv) =>
      if ¬ pyEqStr f fp then Except.ok Option.none
      else
        match toIntE lv with
        | Except.error u => Except.error u
        | Except.ok el =>
            let distance := |el - line|
            if distance > thr then Except.ok Option.none
            else if hasId then
              match toStrE snipv with
              | Except.error u => Except.error u
              | Except.ok snipS =>
                  let etitle := pyLower ((pyStrip snipS).take 50)
                  let titled :=
                    if ititle ≠ [] ∧ etitle ≠ [] then
                      if ititle = etitle then (true, "exact title match".data)
                      else if ititle.length ≥ 30 ∧ etitle.length ≥ 30 then
                        let t80 := (min ititle.length etitle.length) * 4 / 5
                        if ititle.take t80 = etitle.take t80 then
                          (true, "fuzzy title match".data)
                        else (false, ([] : Str))
                      else (false, ([] : Str))
                    else (false, ([] : Str))
                  if titled.1 then
                    Except.ok (some (titled.2, ⟨f, el, distance, snipS.take 100⟩))
                  else
                    let anchorN := (pyLower (pyJoinWSRemoved ianchor)).take 40
                    let snipN := pyLower (pyJoinWSRemoved snipS)
                    let sub := ianchor ≠ [] ∧ snipS ≠ [] ∧ anchorN ≠ [] ∧
                      anchorN.length ≥ 3 ∧ isSub anchorN snipN
                    let kw := anchorKeyword anchorN
                    let key := ianchor ≠ [] ∧ snipS ≠ [] ∧ anchorN ≠ [] ∧
                      kw ≠ [] ∧ kw.length ≥ 4 ∧ isSub kw snipN
                    if sub ∨ key then
                      Except.ok
                        (some ("anchor signature match".data,
                          ⟨f, el, distance, snipS.take 100⟩))
                    else Except.ok Option.none
            else Except.ok Option.none

/-- One entry of the loop with the `except` clause applied: an exception is a
skip. -/
def entryCheck (fp : Str) (line : Int) (ititle ianchor : Str) (hasId : Bool)
    (thr : Int) (e : CEntry) : Option (Str × NearMatch) :=
  match entryCheckE fp line ititle ianchor hasId thr e with
  | Except.ok r => r
  | Except.error _ => Option.none

/-- The loop over posted locations, returning on the first same-issue match. -/
def isNearAux (fp : Str) (line : Int) (ititle ianchor : Str) (hasId : Bool)
    (thr : Int) : List CEntry → Bool × Str × Option NearMatch
  | [] => (false, [], Option.none)
  | e :: rest =>
      match entryCheck fp line ititle ianchor hasId thr e with
      | some (r, m) => (true, r, some m)
      | Option.none => isNearAux fp line ititle ianchor hasId thr rest

/-- The `issue and (issue_title or issue_anchor)` guard of the identity
check. -/
def nearHasId (issue : Option Issue) : Bool :=
  (match issue with
   | some d => !d.isEmpty
   | Option.none => false) &&
    (!(nearIssueTitle issue).isEmpty || !(nearIssueAnchor issue).isEmpty)

/-- `is_near_existing_comment`: suppression of an issue near existing comment
records, with identity matching; the posted-locations set is modelled as a
list in some iteration order. -/
def is_near_existing_comment (fp : Str) (line : Int) (issue : Option Issue)
    (thr : Int) (posted : List CEntry) : Bool × Str × Option NearMatch :=
  isNearAux fp line (nearIssueTitle issue) (nearIssueAnchor issue)
    (nearHasId issue) thr posted

/-! ## Specification-side definitions

These follow the wording of the specification / claims, for comparison with
the source-derived definitions above. -/

/-- Claim-side suffix rule: one path is a path-suffix of the other, the two
differing by whole leading directory components. -/
def componentSuffix (fp dp : Str) : Bool :=
  ('/' :: fp).isSuffixOf dp || ('/' :: dp).isSuffixOf fp

/-- Claim-side path resolution: exact match; else unique component-aligned
suffix match (more than one candidate yields nothing); else unique basename
match (ambiguity yields nothing). -/
def specMatchClaim (parsed : PyDict Str) (fp : Str) : Option Str :=
  if dmem parsed fp then some fp
  else
    let dps := parsed.map Prod.fst
    let q := dps.filter (fun dp => componentSuffix fp dp)
    if q.length = 1 then q.head?
    else if q.length > 1 then Option.none
    else
      let bm := dps.filter (fun dp => pyBasename dp = pyBasename fp)
      if bm.length = 1 then bm.head? else Option.none

/-- Claim-side diff filtering: resolve every requested path by
`specMatchClaim` and concatenate the matched sections in request order. -/
def specFilterClaim (full_diff : Str) (file_paths : List Str) : Str :=
  if file_paths = [] then []
  else
    let parsed := parse_diff (normalize_diff full_diff)
    pyJoin ['\n']
      (file_paths.filterMap (fun fp => (specMatchClaim parsed fp).bind (dget parsed)))

/-- Amended suffix rule: a component-aligned suffix either way, or a plain
string suffix either way provided at least one of the two paths contains a
slash. -/
def looseSuffix (fp dp : Str) : Bool :=
  componentSuffix fp dp ||
    ((fp.isSuffixOf dp || dp.isSuffixOf fp) && (fp.contains '/' || dp.contains '/'))

/-- Amended path resolution: exact match; else the unique loose-suffix
candidate, with two or more candidates yielding nothing (the basename stage
is not consulted); else the unique basename candidate. -/
def specMatchAmended (parsed : PyDict Str) (fp : Str) : Option Str :=
  if dmem parsed fp then some fp
  else
    let dps := parsed.map Prod.fst
    let q := dps.filter (fun dp => looseSuffix fp dp)
    if q.length = 1 then q.head?
    else if q.length > 1 then Option.none
    else
      let bm := dps.filter (fun dp => pyBasename dp = pyBasename fp)
      if bm.length = 1 then bm.head? else Option.none

/-- Header line `diff --git a/OLD b/NEW`. -/
def gitHeader (old new : Str) : Str :=
  "diff --git a/".data ++ old ++ " b/".data ++ new

/-- Region-tracking state shared by the body-line counting machines:
the current destination file and whether a hunk body is open. -/
structure TagState where
  cur : Option Str
  inHunk : Bool

/-- Region transitions of the `extract_commentable_lines` loop, with the
line-number bookkeeping and the commentable dictionary erased. -/
def tagStep (s : TagState) (l : Str) : TagState :=
  if "+++ b/".data.isPrefixOf l then
    { cur := some (firstToken (l.drop 6)), inHunk := false }
  else if (parseHunkNew l).isSome && curTruthy s.cur then { s with inHunk := true }
  else if s.inHunk && curTruthy s.cur then
    if "+".data.isPrefixOf l && !"+++".data.isPrefixOf l then s
    else if " ".data.isPrefixOf l then s
    else if "-".data.isPrefixOf l then s
    else if !l.isEmpty && !"\\".data.isPrefixOf l then { s with inHunk := false }
    else s
  else s

/-- Hunk-body classification of one line under the source's rules: an added
line (leading `+` but not `+++`) or a context line (leading space) inside an
open hunk region, tagged with the current file. -/
def tagOut (s : TagState) (l : Str) : Option (Str × Str) :=
  if "+++ b/".data.isPrefixOf l then Option.none
  else if (parseHunkNew l).isSome && curTruthy s.cur then Option.none
  else
    match s.cur with
    | some f =>
        if s.inHunk && curTruthy s.cur &&
            (("+".data.isPrefixOf l && !"+++".data.isPrefixOf l) ||
              " ".data.isPrefixOf l) then
          some (f, l)
        else Option.none
    | Option.none => Option.none

/-- All added/context hunk-body lines of a diff, tagged by file, under the
source's classification. -/
def hunkBodyTags (s : TagState) : List Str → List (Str × Str)
  | [] => []
  | l :: rest =>
      (match tagOut s l with
       | some t => [t]
       | Option.none => []) ++ hunkBodyTags (tagStep s l) rest

/-- Region transitions as the claim words them: every line with a leading
`+` that is not the `+++ b/` file marker is an added body line and keeps the
hunk open. -/
def claimTagStep (s : TagState) (l : Str) : TagState :=
  if "+++ b/".data.isPrefixOf l then
    { cur := some (firstToken (l.drop 6)), inHunk := false }
  else if (parseHunkNew l).isSome && curTruthy s.cur then { s with inHunk := true }
  else if s.inHunk && curTruthy s.cur then
    if "+".data.isPrefixOf l then s
    else if " ".data.isPrefixOf l then s
    else if "-".data.isPrefixOf l then s
    else if !l.isEmpty && !"\\".data.isPrefixOf l then { s with inHunk := false }
    else s
  else s

/-- Hunk-body classification as the claim words it: inside an open hunk, any
line with leading `+` (the file marker is not a body line) or leading space
counts. -/
def claimTagOut (s : TagState) (l : Str) : Option (Str × Str) :=
  if "+++ b/".data.isPrefixOf l then Option.none
  else if (parseHunkNew l).isSome && curTruthy s.cur then Option.none
  else
    match s.cur with
    | some f =>
        if s.inHunk && curTruthy s.cur &&
            ("+".data.isPrefixOf l || " ".data.isPrefixOf l) then
          some (f, l)
        else Option.none
    | Option.none => Option.none

/-- All added/context hunk-body lines of a diff under the claim's
classification. -/
def claimBodyTags (s : TagState) : List Str → List (Str × Str)
  | [] => []
  | l :: rest =>
      (match claimTagOut s l with
       | some t => [t]
       | Option.none => []) ++ claimBodyTags (claimTagStep s l) rest

/-- Destination files introduced by `+++ b/` header lines, in order. -/
def headerFiles (lines : List Str) : List Str :=
  lines.filterMap
    (fun l =>
      if "+++ b/".data.isPrefixOf l then some (firstToken (l.drop 6))
      else Option.none)

/-- Well-formedness of a diff's lines for the counting claim: every line
opening with `@@` is a valid hunk header, every `+++ b/` header carries a
non-blank path, and no two file headers name the same file. -/
def WFDiffLines (lines : List Str) : Prop :=
  (∀ l ∈ lines, "@@".data.isPrefixOf l → (parseHunkNew l).isSome) ∧
  (∀ l ∈ lines, "+++ b/".data.isPrefixOf l →
    (l.drop 6 = [] ∨ ∃ c ∈ l.drop 6, ¬ pyIsSpace c)) ∧
  (headerFiles lines).Nodup

/-- Claim-side exact-title identity: the normalized titles are equal (and
present). -/
def claimSameExactTitle (ititle etitle : Str) : Prop :=
  ititle ≠ [] ∧ etitle ≠ [] ∧ ititle = etitle

/-- Claim-side fuzzy-title identity: both normalized titles reach the
minimum length 30 and their prefixes agree over 80 percent of the shorter
length. -/
def claimSameFuzzyTitle (ititle etitle : Str) : Prop :=
  ititle.length ≥ 30 ∧ etitle.length ≥ 30 ∧
    ititle.take (min ititle.length etitle.length * 4 / 5) =
      etitle.take (min ititle.length etitle.length * 4 / 5)

/-- Claim-side anchor-substring identity: the issue's normalized anchor
signature occurs inside the normalized stored snippet. -/
def claimSameAnchorSub (ianchor snip : Str) : Prop :=
  ianchor ≠ [] ∧
    isSub ((pyLower (pyJoinWSRemoved ianchor)).take 40)
      (pyLower (pyJoinWSRemoved snip)) = true

/-- Claim-side anchor-keyword identity: the anchor signature's leading
alphanumeric keyword has length at least four and occurs in the normalized
snippet. -/
def claimSameAnchorKeyword (ianchor snip : Str) : Prop :=
  let kw := anchorKeyword ((pyLower (pyJoinWSRemoved ianchor)).take 40)
  ianchor ≠ [] ∧ kw.length ≥ 4 ∧ isSub kw (pyLower (pyJoinWSRemoved snip)) = true

/-- Malformed posted-location entries per the claim: values that are neither
dictionaries nor tuples/lists of length at least two, and dictionaries
without a usable (truthy) file — under either key — or line. -/
def MalformedEntry : CEntry → Prop
  | CEntry.dict d =>
      pyTruthy
        (if pyTruthy ((dget d "file".data).getD PyVal.none) then
          (dget d "file".data).getD PyVal.none
        else (dget d "path".data).getD PyVal.none) = false ∨
      pyTruthy ((dget d "line".data).getD PyVal.none) = false
  | CEntry.tup vs => vs.length < 2
  | CEntry.other => True

/-! ## Concrete instances used by the theorems -/

/-- Trivial `re` oracle (no regex pattern matches anything); every concrete
evaluation below only exercises plain-substring candidates, which never
consult the oracle. -/
def reNone : ReOracle :=
  ⟨fun _ _ => false, fun _ _ => false, fun _ => true, fun _ => []⟩

/-- Commentable-line texts with a `Button(` declaration at line 10 and a
`.clickable` modifier at line 11. -/
def anchorDemoTexts : LineTexts :=
  [(10, "        Button(onClick = handler)".data),
   (11, "            .clickable helper".data),
   (12, "        Spacer()".data)]

/-- Issue whose explicit anchor names the modifier while its code snippet
shows the `Button(` call site. -/
def anchorDemoIssue : Issue :=
  [("file".data, PyVal.str "Form.kt".data),
   ("line".data, PyVal.int 14),
   ("title".data, PyVal.str "Button missing label".data),
   ("anchor_text".data, PyVal.str "clickable".data),
   ("current_code".data,
    PyVal.str "Button(onClick = handler) .clickable helper".data)]

/-- Small diff adding a `Button(` declaration, a modifier line and a trailing
element at new-file lines 10 to 12 of `Form.kt`. -/
def valDiff : Str :=
  ("diff --git a/Form.kt b/Form.kt\n--- a/Form.kt\n+++ b/Form.kt\n" ++
   "@@ -9,0 +10,3 @@\n+Button(onClick = handler)\n+.clickable helper\n+Spacer()").data

/-- Issue proposing the already-commentable line 10, with an explicit anchor
that matches the different line 11. -/
def valIssueAt10 : Issue :=
  [("file".data, PyVal.str "Form.kt".data),
   ("line".data, PyVal.int 10),
   ("title".data, PyVal.str "Button missing label".data),
   ("anchor_text".data, PyVal.str "clickable".data)]

/-- Issue proposing the non-commentable line 9, with an explicit anchor
matching line 11. -/
def valIssueAt9 : Issue :=
  [("file".data, PyVal.str "Form.kt".data),
   ("line".data, PyVal.int 9),
   ("title".data, PyVal.str "Button missing label".data),
   ("anchor_text".data, PyVal.str "clickable".data)]

/-- Diff whose only section is `src/components/Main.tsx`. -/
def pathDiffA : Str :=
  "diff --git a/src/components/Main.tsx b/src/components/Main.tsx\n+hello".data

/-- Diff with sections `web/src/Main.tsx` and `app/src/Main.tsx`. -/
def pathDiffB : Str :=
  ("diff --git a/web/src/Main.tsx b/web/src/Main.tsx\n+a\n" ++
   "diff --git a/app/src/Main.tsx b/app/src/Main.tsx\n+b").data

/-- Diff with sections `web/src/Main.tsx` and `x/Main.tsx`. -/
def pathDiffC : Str :=
  ("diff --git a/web/src/Main.tsx b/web/src/Main.tsx\n+a\n" ++
   "diff --git a/x/Main.tsx b/x/Main.tsx\n+b").data

/-- Diff whose hunk adds the line `int x;` followed by an added line whose
content itself begins with `++` (so the raw body line begins `+++`). -/
def plusDiff : Str :=
  ("diff --git a/f.c b/f.c\n--- a/f.c\n+++ b/f.c\n" ++
   "@@ -1 +1,2 @@\n+int x;\n+++y;").data

/-- Fingerprint example issue at line 42. -/
def fpIssue42 : Issue :=
  [("file".data, PyVal.str "file.kt".data),
   ("line".data, PyVal.int 42),
   ("wcag_sc".data, PyVal.str "1.1.1".data),
   ("title".data, PyVal.str "Missing label".data),
   ("description".data, PyVal.str "first description".data),
   ("severity".data, PyVal.str "high".data)]

/-- Fingerprint example issue at line 44 with different description and
severity. -/
def fpIssue44 : Issue :=
  [("file".data, PyVal.str "file.kt".data),
   ("line".data, PyVal.int 44),
   ("wcag_sc".data, PyVal.str "1.1.1".data),
   ("title".data, PyVal.str "Missing label".data),
   ("description".data, PyVal.str "second description".data),
   ("severity".data, PyVal.str "low".data)]

/-- Fingerprint example issue at line 50. -/
def fpIssue50 : Issue :=
  [("file".data, PyVal.str "file.kt".data),
   ("line".data, PyVal.int 50),
   ("wcag_sc".data, PyVal.str "1.1.1".data),
   ("title".data, PyVal.str "Missing label".data),
   ("description".data, PyVal.str "first description".data),
   ("severity".data, PyVal.str "high".data)]

/-- Existing comment record `(file.kt, 460, "Button missing label")`. -/
def postedRec : CEntry :=
  CEntry.tup [PyVal.str "file.kt".data, PyVal.int 460,
    PyVal.str "Button missing label".data]

/-- New issue `TextField missing hint`. -/
def hintIssue : Issue :=
  [("title".data, PyVal.str "TextField missing hint".data)]

/-- New issue `Button missing label`. -/
def labelIssue : Issue :=
  [("title".data, PyVal.str "Button missing label".data)]

/-! ## Helper lemmas -/

theorem pickMinBy_mem {α : Type} (f : α → Int) (l : List α) (x : α)
    (h : pickMinBy f l = some x) : x ∈ l := by
  suffices H : ∀ (l : List α) (acc : Option α),
      l.foldl
        (fun acc x =>
          match acc with
          | Option.none => some x
          | some y => if f x < f y then some x else some y) acc = some x →
      acc = some x ∨ x ∈ l by
    rcases H l Option.none h with h1 | h1
    · cases h1
    · exact h1
  intro l
  induction l with
  | nil => intro acc h; exact Or.inl h
  | cons a rest ih =>
      intro acc h
      simp only [List.foldl_cons] at h
      rcases ih _ h with h1 | h1
      · cases acc with
        | none =>
            dsimp only at h1
            simp only [Option.some.injEq] at h1
            exact Or.inr (h1 ▸ List.mem_cons_self a rest)
        | some z =>
            dsimp only at h1
            by_cases hc : f a < f z
            · rw [if_pos hc] at h1
              simp only [Option.some.injEq] at h1
              exact Or.inr (h1 ▸ List.mem_cons_self a rest)
            · rw [if_neg hc] at h1
              exact Or.inl h1
      · exact Or.inr (List.mem_cons_of_mem _ h1)

theorem firstCand_plain (o : ReOracle) (c : Str) (h : hasReChar c = false)
    (txt : Str) :
    firstCand o [c] txt =
      if isSub c txt || isSub (pyLower c) (pyLower txt) then some c
      else Option.none := by
  cases hb : (isSub c txt || isSub (pyLower c) (pyLower txt)) <;>
    simp [firstCand, List.find?, candMatch, h, hb]

theorem anchorCandidates_explicit (o : ReOracle) (issue : Issue)
    (ext : Option Str) (v : PyVal)
    (hv : dget issue "anchor_text".data = some v) (ht : pyTruthy v = true) :
    anchorCandidates o issue ext = [pyToStr v] := by
  unfold anchorCandidates
  rw [hv]
  simp only [Option.getD, ht, if_true]

theorem resolve_plain_indep (o o' : ReOracle) (issue : Issue) (rlt : LineTexts)
    (fb : Option Int) (ext : Option Str) (v : PyVal)
    (hv : dget issue "anchor_text".data = some v) (ht : pyTruthy v = true)
    (hr : hasReChar (pyToStr v) = false) :
    resolve_anchor_line o issue rlt fb ext =
      resolve_anchor_line o' issue rlt fb ext := by
  unfold resolve_anchor_line
  rw [anchorCandidates_explicit o issue ext v hv ht,
    anchorCandidates_explicit o' issue ext v hv ht,
    funext (firstCand_plain o (pyToStr v) hr),
    funext (firstCand_plain o' (pyToStr v) hr)]

/-- C1: at an issue carrying both an explicit anchor (`clickable`, matching
the commentable modifier line 11) and a code snippet whose first
construction-like token `Button(` matches the different commentable line 10,
`resolve_anchor_line` returns the explicit anchor's line 11, not the
call-site line 10: the resolver never consults the snippet, contradicting
the claim (and the repository's own tests, which exercise a call-site
priority and an `extract_call_site_token` helper that the module does not
define). -/
theorem c1_resolve_ignores_call_site (o : ReOracle) :
    resolve_anchor_line o anchorDemoIssue anchorDemoTexts (some 14)
        (some ".kt".data) = (some 11, some ".clickable helper".data) ∧
    isSub "Button(".data "        Button(onClick = handler)".data = true ∧
    iget anchorDemoTexts 10 = some "        Button(onClick = handler)".data ∧
    isSub "clickable".data "            .clickable helper".data = true := by
  refine ⟨?_, by decide, by decide, by decide⟩
  rw [resolve_plain_indep o reNone anchorDemoIssue anchorDemoTexts (some 14)
    (some ".kt".data) (PyVal.str "clickable".data) (by decide) (by decide)
    (by decide)]
  decide

theorem dget_dset_ne {β : Type} (d : PyDict β) (k k' : Str) (v : β)
    (h : k' ≠ k) : dget (dset d k' v) k = dget d k := by
  induction d with
  | nil => simp [dset, dget, h]
  | cons p rest ih =>
      by_cases hp : p.1 = k'
      · simp [dset, hp, dget, h, Ne.symm h]
      · cases p with
        | mk pk pv =>
            simp only at hp
            simp only [dset, if_neg hp, dget]
            by_cases hk : pk = k
            · simp [hk]
            · simp [hk, ih]

/-- C2 counterexample: an issue proposing the already-commentable line 10 is
kept at line 10 by `validate_issues_in_batch`, even though anchor
refinement, had it been attempted, would have produced the different
line 11 — so refinement is not attempted for already-commentable lines. -/
theorem c2_counterexample :
    (validate_issues_in_batch reNone [valIssueAt10] ["Form.kt".data]
      (extract_commentable_lines valDiff) (some valDiff)).1 = [valIssueAt10] ∧
    resolve_anchor_line reNone valIssueAt10
      ((dget (extract_commentable_line_texts valDiff
        (extract_commentable_lines valDiff)) "Form.kt".data).getD [])
      (some 10) (some (pathSuffix "Form.kt".data)) =
      (some 11, some ".clickable helper".data) ∧
    getIntD valIssueAt10 "line".data = 10 ∧ (11 : Int) ≠ 10 := by decide

/-- C2 (amended): an issue whose proposed line is already in its file's
commentable-line list is kept unchanged — `validate_issues_in_batch` does
not attempt AnchorResolver refinement for it (refinement runs only for
non-commentable proposed lines). -/
theorem c2_commentable_line_kept_without_refinement (o : ReOracle)
    (batch : List Str) (cl : PyDict (List Int)) (lt : PyDict LineTexts)
    (diffT : Bool) (issue : Issue)
    (h1 : getStrD issue "file".data ∈ batch)
    (h2 : getIntD issue "line".data > 0)
    (h3 : getIntD issue "line".data ∈
      (dget cl (getStrD issue "file".data)).getD []) :
    processOne o batch cl lt diffT issue = (some issue, []) := by
  unfold processOne
  rw [if_neg (by simpa using h1)]
  rw [if_neg (by omega)]
  rw [if_neg (by intro he; rw [he] at h3; cases h3)]
  rw [if_pos h3]

/-- Witness for the amended C2 theorem at a concrete batch. -/
theorem c2_commentable_line_kept_witness :
    processOne reNone ["Form.kt".data] (extract_commentable_lines valDiff)
      (extract_commentable_line_texts valDiff (extract_commentable_lines valDiff))
      true valIssueAt10 = (some valIssueAt10, []) :=
  c2_commentable_line_kept_without_refinement reNone _ _ _ _ _
    (by decide) (by decide) (by decide)

/-- C9 counterexample: validation of an issue resolved through the anchor
resolver mutates not only its line (9 to 11) but also stores the matched
anchor text under the new key `_anchor_matched_text` — a second mutated
field, contradicting the claim that the resolved line is the only mutation. -/
theorem c9_counterexample :
    (validate_issues_in_batch reNone [valIssueAt9] ["Form.kt".data]
      (extract_commentable_lines valDiff) (some valDiff)).1 =
      [dset (dset valIssueAt9 "line".data (PyVal.int 11))
        "_anchor_matched_text".data (PyVal.str ".clickable helper".data)] ∧
    dget valIssueAt9 "_anchor_matched_text".data = Option.none ∧
    dget (dset (dset valIssueAt9 "line".data (PyVal.int 11))
        "_anchor_matched_text".data (PyVal.str ".clickable helper".data))
      "_anchor_matched_text".data =
      some (PyVal.str ".clickable helper".data) := by decide

/-- C9 (amended): for every issue kept by the validation loop, the only
fields possibly mutated in place are the resolved line number and the stored
matched anchor text (`_anchor_matched_text`); every other field is
unchanged. -/
theorem c9_only_line_and_matched_text_mutated (o : ReOracle)
    (batch : List Str) (cl : PyDict (List Int)) (lt : PyDict LineTexts)
    (diffT : Bool) (issue out : Issue) (ds : List DropRec)
    (h : processOne o batch cl lt diffT issue = (some out, ds)) (k : Str)
    (hk1 : k ≠ "line".data) (hk2 : k ≠ "_anchor_matched_text".data) :
    dget out k = dget issue k := by
  unfold processOne at h
  dsimp only at h
  repeat' split at h
  all_goals cases h
  all_goals try rw [dget_dset_ne _ _ _ _ (Ne.symm hk2)]
  all_goals try rw [dget_dset_ne _ _ _ _ (Ne.symm hk1)]
  all_goals rfl

/-- Witness for the amended C9 theorem at a concrete validation run. -/
theorem c9_only_line_and_matched_text_witness :
    dget (dset (dset valIssueAt9 "line".data (PyVal.int 11))
        "_anchor_matched_text".data (PyVal.str ".clickable helper".data))
      "title".data = dget valIssueAt9 "title".data :=
  c9_only_line_and_matched_text_mutated reNone ["Form.kt".data]
    (extract_commentable_lines valDiff)
    (extract_commentable_line_texts valDiff (extract_commentable_lines valDiff))
    true valIssueAt9 _ [] (by decide) "title".data (by decide) (by decide)

theorem parseEntry_malformed (e : CEntry) (h : MalformedEntry e) :
    parseEntry e = Option.none := by
  cases e with
  | dict d =>
      simp only [MalformedEntry] at h
      simp only [parseEntry]
      rcases h with h | h <;> simp [h]
  | tup vs =>
      simp only [MalformedEntry] at h
      simp only [parseEntry]
      rw [if_neg (by omega)]
  | other => rfl

theorem entryCheckE_malformed (fp : Str) (line : Int) (it ia : Str)
    (hasId : Bool) (thr : Int) (e : CEntry) (h : MalformedEntry e) :
    entryCheckE fp line it ia hasId thr e = Except.ok Option.none := by
  unfold entryCheckE
  rw [parseEntry_malformed e h]

theorem isNearAux_cons_skip (fp : Str) (line : Int) (it ia : Str)
    (hasId : Bool) (thr : Int) (e : CEntry) (rest : List CEntry)
    (h : entryCheck fp line it ia hasId thr e = Option.none) :
    isNearAux fp line it ia hasId thr (e :: rest) =
      isNearAux fp line it ia hasId thr rest := by
  simp only [isNearAux, h]

theorem isNearAux_append_malformed (fp : Str) (line : Int) (it ia : Str)
    (hasId : Bool) (thr : Int) (e : CEntry) (h : MalformedEntry e)
    (pre post : List CEntry) :
    isNearAux fp line it ia hasId thr (pre ++ e :: post) =
      isNearAux fp line it ia hasId thr (pre ++ post) := by
  induction pre with
  | nil =>
      simp only [List.nil_append]
      apply isNearAux_cons_skip
      unfold entryCheck
      rw [entryCheckE_malformed fp line it ia hasId thr e h]
  | cons a rest ih =>
      simp only [List.cons_append]
      unfold isNearAux
      rw [ih]

theorem isNearAux_all_none (fp : Str) (line : Int) (it ia : Str)
    (hasId : Bool) (thr : Int) (posted : List CEntry)
    (h : ∀ e ∈ posted, entryCheck fp line it ia hasId thr e = Option.none) :
    isNearAux fp line it ia hasId thr posted = (false, [], Option.none) := by
  induction posted with
  | nil => rfl
  | cons e rest ih =>
      unfold isNearAux
      rw [h e (List.mem_cons_self e rest)]
      exact ih (fun x hx => h x (List.mem_cons_of_mem _ hx))

theorem isNearAux_true_mem (fp : Str) (line : Int) (it ia : Str)
    (hasId : Bool) (thr : Int) (posted : List CEntry) (r : Str)
    (m : NearMatch)
    (h : isNearAux fp line it ia hasId thr posted = (true, r, some m)) :
    ∃ e ∈ posted, entryCheck fp line it ia hasId thr e = some (r, m) := by
  induction posted with
  | nil => cases h
  | cons e rest ih =>
      unfold isNearAux at h
      cases hc : entryCheck fp line it ia hasId thr e with
      | none =>
          rw [hc] at h
          rcases ih h with ⟨x, hx, hx2⟩
          exact ⟨x, List.mem_cons_of_mem _ hx, hx2⟩
      | some p =>
          rw [hc] at h
          cases p with
          | mk pr pm =>
              simp only [Prod.mk.injEq, Option.some.injEq, true_and] at h
              exact ⟨e, List.mem_cons_self e rest, by rw [hc, h.1, h.2]⟩

theorem entryCheck_same_issue (fp : Str) (line : Int) (it ia : Str)
    (hasId : Bool) (thr : Int) (e : CEntry) (r : Str) (m : NearMatch)
    (h : entryCheck fp line it ia hasId thr e = some (r, m)) :
    ∃ f lv sv, parseEntry e = some (f, lv, sv) ∧ pyEqStr f fp = true ∧
      ∃ el, toIntE lv = Except.ok el ∧ |el - line| ≤ thr ∧
        ∃ ss, toStrE sv = Except.ok ss ∧
          (claimSameExactTitle it (pyLower ((pyStrip ss).take 50)) ∨
           claimSameFuzzyTitle it (pyLower ((pyStrip ss).take 50)) ∨
           claimSameAnchorSub ia ss ∨ claimSameAnchorKeyword ia ss) := by
  unfold entryCheck entryCheckE at h
  cases hp : parseEntry e with
  | none => rw [hp] at h; cases h
  | some t =>
      obtain ⟨f, lv, sv⟩ := t
      rw [hp] at h
      dsimp only at h
      by_cases hf : pyEqStr f fp = true
      case neg =>
        rw [if_pos (by simpa using hf)] at h
        cases h
      case pos =>
        rw [if_neg (by simpa using hf)] at h
        cases hel : toIntE lv with
        | error u => rw [hel] at h; cases h
        | ok el =>
            rw [hel] at h
            dsimp only at h
            by_cases hd : |el - line| > thr
            case pos =>
              rw [if_pos hd] at h
              cases h
            case neg =>
              have hdist : |el - line| ≤ thr := not_lt.mp hd
              rw [if_neg hd] at h
              refine ⟨f, lv, sv, rfl, hf, el, hel, hdist, ?_⟩
              cases hhi : hasId with
              | false => rw [hhi] at h; cases h
              | true =>
                  rw [hhi] at h
                  rw [if_pos rfl] at h
                  cases hss : toStrE sv with
                  | error u => rw [hss] at h; cases h
                  | ok ss =>
                      rw [hss] at h
                      dsimp only at h
                      refine ⟨ss, rfl, ?_⟩
                      by_cases ht1 : it ≠ [] ∧ pyLower ((pyStrip ss).take 50) ≠ []
                      case pos =>
                        rw [if_pos ht1] at h
                        by_cases ht2 : it = pyLower ((pyStrip ss).take 50)
                        case pos =>
                          exact Or.inl ⟨ht1.1, ht1.2, ht2⟩
                        case neg =>
                          rw [if_neg ht2] at h
                          by_cases ht3 : it.length ≥ 30 ∧
                              (pyLower ((pyStrip ss).take 50)).length ≥ 30
                          case pos =>
                            rw [if_pos ht3] at h
                            by_cases ht4 : it.take
                                (min it.length (pyLower ((pyStrip ss).take 50)).length * 4 / 5) =
                                (pyLower ((pyStrip ss).take 50)).take
                                (min it.length (pyLower ((pyStrip ss).take 50)).length * 4 / 5)
                            case pos =>
                              exact Or.inr (Or.inl ⟨ht3.1, ht3.2, ht4⟩)
                            case neg =>
                              rw [if_neg ht4] at h
                              dsimp only at h
                              by_cases h5 : (ia ≠ [] ∧ ss ≠ [] ∧
                                  (pyLower (pyJoinWSRemoved ia)).take 40 ≠ [] ∧
                                  ((pyLower (pyJoinWSRemoved ia)).take 40).length ≥ 3 ∧
                                  isSub ((pyLower (pyJoinWSRemoved ia)).take 40)
                                    (pyLower (pyJoinWSRemoved ss)) = true) ∨
                                  (ia ≠ [] ∧ ss ≠ [] ∧
                                  (pyLower (pyJoinWSRemoved ia)).take 40 ≠ [] ∧
                                  anchorKeyword ((pyLower (pyJoinWSRemoved ia)).take 40) ≠ [] ∧
                                  (anchorKeyword ((pyLower (pyJoinWSRemoved ia)).take 40)).length ≥ 4 ∧
                                  isSub (anchorKeyword ((pyLower (pyJoinWSRemoved ia)).take 40))
                                    (pyLower (pyJoinWSRemoved ss)) = true)
                              case pos =>
                                rcases h5 with h5 | h5
                                · exact Or.inr (Or.inr (Or.inl
                                    ⟨h5.1, h5.2.2.2.2⟩))
                                · exact Or.inr (Or.inr (Or.inr
                                    ⟨h5.1, h5.2.2.2.2.1, h5.2.2.2.2.2⟩))
                              case neg =>
                                rw [if_neg h5] at h
                                cases h
                          case neg =>
                            rw [if_neg ht3] at h
                            dsimp only at h
                            by_cases h5 : (ia ≠ [] ∧ ss ≠ [] ∧
                                (pyLower (pyJoinWSRemoved ia)).take 40 ≠ [] ∧
                                ((pyLower (pyJoinWSRemoved ia)).take 40).length ≥ 3 ∧
                                isSub ((pyLower (pyJoinWSRemoved ia)).take 40)
                                  (pyLower (pyJoinWSRemoved ss)) = true) ∨
                                (ia ≠ [] ∧ ss ≠ [] ∧
                                (pyLower (pyJoinWSRemoved ia)).take 40 ≠ [] ∧
                                anchorKeyword ((pyLower (pyJoinWSRemoved ia)).take 40) ≠ [] ∧
                                (anchorKeyword ((pyLower (pyJoinWSRemoved ia)).take 40)).length ≥ 4 ∧
                                isSub (anchorKeyword ((pyLower (pyJoinWSRemoved ia)).take 40))
                                  (pyLower (pyJoinWSRemoved ss)) = true)
                            case pos =>
                              rcases h5 with h5 | h5
                              · exact Or.inr (Or.inr (Or.inl ⟨h5.1, h5.2.2.2.2⟩))
                              · exact Or.inr (Or.inr (Or.inr
                                  ⟨h5.1, h5.2.2.2.2.1, h5.2.2.2.2.2⟩))
                            case neg =>
                              rw [if_neg h5] at h
                              cases h
                      case neg =>
                        rw [if_neg ht1] at h
                        dsimp only at h
                        by_cases h5 : (ia ≠ [] ∧ ss ≠ [] ∧
                            (pyLower (pyJoinWSRemoved ia)).take 40 ≠ [] ∧
                            ((pyLower (pyJoinWSRemoved ia)).take 40).length ≥ 3 ∧
                            isSub ((pyLower (pyJoinWSRemoved ia)).take 40)
                              (pyLower (pyJoinWSRemoved ss)) = true) ∨
                            (ia ≠ [] ∧ ss ≠ [] ∧
                            (pyLower (pyJoinWSRemoved ia)).take 40 ≠ [] ∧
                            anchorKeyword ((pyLower (pyJoinWSRemoved ia)).take 40) ≠ [] ∧
                            (anchorKeyword ((pyLower (pyJoinWSRemoved ia)).take 40)).length ≥ 4 ∧
                            isSub (anchorKeyword ((pyLower (pyJoinWSRemoved ia)).take 40))
                              (pyLower (pyJoinWSRemoved ss)) = true)
                        case pos =>
                          rcases h5 with h5 | h5
                          · exact Or.inr (Or.inr (Or.inl ⟨h5.1, h5.2.2.2.2⟩))
                          · exact Or.inr (Or.inr (Or.inr
                              ⟨h5.1, h5.2.2.2.2.1, h5.2.2.2.2.2⟩))
                        case neg =>
                          rw [if_neg h5] at h
                          cases h

/-- C8: suppression by `is_near_existing_comment` happens only when some
posted record parses to the same file within the radius AND the pair is
judged the same issue by exact normalized-title equality, 80-percent prefix
agreement of titles of length at least 30, the anchor signature occurring in
the stored snippet, or the anchor signature's leading alphanumeric keyword
(length at least 4) occurring in that snippet; proximity alone never
suppresses — the nearby `TextField missing hint` issue is not suppressed by
the `Button missing label` record, while the matching `Button missing label`
issue at line 462 is. -/
theorem c8_suppression_only_for_same_issue :
    (∀ (fp : Str) (line : Int) (issue : Option Issue) (thr : Int)
        (posted : List CEntry) (r : Str) (m : NearMatch),
      is_near_existing_comment fp line issue thr posted = (true, r, some m) →
      ∃ e ∈ posted, ∃ f lv sv, parseEntry e = some (f, lv, sv) ∧
        pyEqStr f fp = true ∧
        ∃ el, toIntE lv = Except.ok el ∧ |el - line| ≤ thr ∧
          ∃ ss, toStrE sv = Except.ok ss ∧
            (claimSameExactTitle (nearIssueTitle issue)
              (pyLower ((pyStrip ss).take 50)) ∨
             claimSameFuzzyTitle (nearIssueTitle issue)
              (pyLower ((pyStrip ss).take 50)) ∨
             claimSameAnchorSub (nearIssueAnchor issue) ss ∨
             claimSameAnchorKeyword (nearIssueAnchor issue) ss)) ∧
    is_near_existing_comment "file.kt".data 465 (some hintIssue) 5 [postedRec] =
      (false, [], Option.none) ∧
    (is_near_existing_comment "file.kt".data 462 (some labelIssue) 5
      [postedRec]).1 = true := by
  refine ⟨?_, by decide, by decide⟩
  intro fp line issue thr posted r m h
  unfold is_near_existing_comment at h
  rcases isNearAux_true_mem _ _ _ _ _ _ _ _ _ h with ⟨e, he, hc⟩
  exact ⟨e, he, entryCheck_same_issue _ _ _ _ _ _ _ _ _ hc⟩

/-- Witness for C8 at the suppressed concrete example. -/
theorem c8_suppression_witness :
    ∃ e ∈ [postedRec], ∃ f lv sv, parseEntry e = some (f, lv, sv) ∧
      pyEqStr f "file.kt".data = true ∧
      ∃ el, toIntE lv = Except.ok el ∧ |el - (462 : Int)| ≤ 5 ∧
        ∃ ss, toStrE sv = Except.ok ss ∧
          (claimSameExactTitle (nearIssueTitle (some labelIssue))
            (pyLower ((pyStrip ss).take 50)) ∨
           claimSameFuzzyTitle (nearIssueTitle (some labelIssue))
            (pyLower ((pyStrip ss).take 50)) ∨
           claimSameAnchorSub (nearIssueAnchor (some labelIssue)) ss ∨
           claimSameAnchorKeyword (nearIssueAnchor (some labelIssue)) ss) :=
  c8_suppression_only_for_same_issue.1 "file.kt".data 462 (some labelIssue) 5
    [postedRec] "exact title match".data
    ⟨PyVal.str "file.kt".data, 460, 2, "Button missing label".data⟩ (by decide)

/-- C10: the suppression check is total over arbitrary posted-location
collections — entries that are not dictionaries or pairs-or-longer
tuples/lists, and dictionary entries without a usable file or line, are
skipped without an exception escaping (the entry body yields a plain skip,
not an error), and removing such an entry does not change the result; when
no entry identifies the same issue the function returns
`(False, "", None)`. -/
theorem c10_total_and_default_result :
    (∀ (fp : Str) (line : Int) (it ia : Str) (hasId : Bool) (thr : Int)
        (e : CEntry), MalformedEntry e →
      entryCheckE fp line it ia hasId thr e = Except.ok Option.none) ∧
    (∀ (fp : Str) (line : Int) (issue : Option Issue) (thr : Int)
        (pre post : List CEntry) (e : CEntry), MalformedEntry e →
      is_near_existing_comment fp line issue thr (pre ++ e :: post) =
        is_near_existing_comment fp line issue thr (pre ++ post)) ∧
    (∀ (fp : Str) (line : Int) (issue : Option Issue) (thr : Int)
        (posted : List CEntry),
      (∀ e ∈ posted, entryCheck fp line (nearIssueTitle issue)
          (nearIssueAnchor issue) (nearHasId issue) thr e = Option.none) →
      is_near_existing_comment fp line issue thr posted =
        (false, [], Option.none)) := by
  refine ⟨?_, ?_, ?_⟩
  · exact fun fp line it ia hasId thr e h =>
      entryCheckE_malformed fp line it ia hasId thr e h
  · intro fp line issue thr pre post e h
    unfold is_near_existing_comment
    exact isNearAux_append_malformed _ _ _ _ _ _ e h pre post
  · intro fp line issue thr posted h
    unfold is_near_existing_comment
    exact isNearAux_all_none _ _ _ _ _ _ posted h

/-- Witness for C10: a non-dict non-tuple entry is skipped, leaving the
result unchanged. -/
theorem c10_total_witness :
    is_near_existing_comment "file.kt".data 462 (some labelIssue) 5
        (CEntry.other :: [postedRec]) =
      is_near_existing_comment "file.kt".data 462 (some labelIssue) 5
        [postedRec] :=
  c10_total_and_default_result.2.1 "file.kt".data 462 (some labelIssue) 5
    [] [postedRec] CEntry.other trivial

/-- C7: the issue fingerprint depends only on the normalized file path, the
five-line bucket, the normalized taxonomy code, the fifty-character
normalized title prefix and the optional anchor signature: issues agreeing
on all five components receive equal fingerprints (the example issues at
lines 42 and 44, with differing descriptions and severities, collide), while
the same issue at line 50 lands in bucket 50 and receives a different
fingerprint. -/
theorem c7_fingerprint_components :
    (∀ i j : Issue, fpFile i = fpFile j → fpBucket i = fpBucket j →
      fpWcag i = fpWcag j → fpTitle i = fpTitle j →
      fpAnchorSig i = fpAnchorSig j →
      compute_issue_fingerprint i = compute_issue_fingerprint j) ∧
    compute_issue_fingerprint fpIssue42 = compute_issue_fingerprint fpIssue44 ∧
    compute_issue_fingerprint fpIssue42 ≠ compute_issue_fingerprint fpIssue50 := by
  refine ⟨?_, by decide, by decide⟩
  intro i j h1 h2 h3 h4 h5
  unfold compute_issue_fingerprint fingerprintStr
  rw [h1, h2, h3, h4, h5]

/-- Witness for C7: the two bucket-sharing issues, through the dependence
theorem. -/
theorem c7_fingerprint_witness :
    compute_issue_fingerprint fpIssue44 = compute_issue_fingerprint fpIssue42 :=
  c7_fingerprint_components.1 fpIssue44 fpIssue42 (by decide) (by decide)
    (by decide) (by decide) (by decide)

theorem findB_cons_nonspace (c : Char) (l : Str) (h : pyIsSpace c = false) :
    findB (c :: l) = findB l := by
  simp [findB, h]

theorem findB_append_nonspace (pre l : Str)
    (h : ∀ c ∈ pre, pyIsSpace c = false) :
    findB (pre ++ l) = findB l := by
  induction pre with
  | nil => rfl
  | cons c rest ih =>
      rw [List.cons_append,
        findB_cons_nonspace c _ (h c (List.mem_cons_self c rest))]
      exact ih (fun x hx => h x (List.mem_cons_of_mem _ hx))

theorem findB_header (old new : Str)
    (hOld : ∀ c ∈ old, pyIsSpace c = false)
    (hNew : ∀ c ∈ new, pyIsSpace c = false) (hne : new ≠ []) :
    findB (gitHeader old new) = some new := by
  have hassoc : gitHeader old new =
      "diff --git a/".data ++ (old ++ (' ' :: 'b' :: '/' :: new)) := by
    unfold gitHeader
    rw [List.append_assoc, List.append_assoc]
    rfl
  have hstep : ∀ l : Str, findB ("diff --git a/".data ++ l) = findB l := by
    intro l
    show findB
      ('d' :: 'i' :: 'f' :: 'f' :: ' ' :: '-' :: '-' :: 'g' :: 'i' :: 't' ::
        ' ' :: 'a' :: '/' :: l) = findB l
    simp [findB, tryB, pyIsSpace]
  have htake : new.takeWhile (fun c => !pyIsSpace c) = new :=
    List.takeWhile_eq_self_iff.mpr (fun x hx => by simp [hNew x hx])
  rw [hassoc, hstep, findB_append_nonspace old _ hOld]
  have h1 : tryB ('b' :: '/' :: new) = some new := by
    show (if new.takeWhile (fun c => !pyIsSpace c) = [] then Option.none
      else some (new.takeWhile (fun c => !pyIsSpace c))) = some new
    rw [htake, if_neg hne]
  simp [findB, h1, pyIsSpace]

theorem splitLines_no_newline (l : Str) (h : ∀ c ∈ l, c ≠ '\n') :
    splitLines l = [l] := by
  induction l with
  | nil => rfl
  | cons c rest ih =>
      have hc : c ≠ '\n' := h c (List.mem_cons_self c rest)
      have ihr : splitLines rest = [rest] :=
        ih (fun x hx => h x (List.mem_cons_of_mem _ hx))
      show (if c = '\n' then [] :: splitLines rest
        else match splitLines rest with
          | [] => [[c]]
          | l :: ls => (c :: l) :: ls) = [c :: rest]
      rw [if_neg hc, ihr]

theorem isPrefixOf_append_self (l m : Str) : l.isPrefixOf (l ++ m) = true := by
  induction l with
  | nil => simp [List.isPrefixOf]
  | cons c rest ih => simp [List.isPrefixOf, ih]

/-- C6: a `diff --git a/OLD b/NEW` header is keyed exactly by the destination
path NEW — the extraction captures the maximal non-whitespace run after
` b/`, for any whitespace-free OLD and non-empty whitespace-free NEW — and
in particular `diff --git a/src/Old.kt b/web/src/New.kt` is keyed as
`web/src/New.kt` exactly. -/
theorem c6_parse_diff_keyed_by_destination :
    (∀ old new : Str, (∀ c ∈ old, pyIsSpace c = false) →
      (∀ c ∈ new, pyIsSpace c = false) → new ≠ [] →
      findB (gitHeader old new) = some new ∧
      parse_diff (gitHeader old new) = [(new, gitHeader old new)]) ∧
    parse_diff "diff --git a/src/Old.kt b/web/src/New.kt".data =
      [("web/src/New.kt".data,
        "diff --git a/src/Old.kt b/web/src/New.kt".data)] := by
  refine ⟨?_, by decide⟩
  intro old new hOld hNew hne
  have hfind := findB_header old new hOld hNew hne
  refine ⟨hfind, ?_⟩
  have hmem : ∀ c ∈ gitHeader old new, pyIsSpace c = false ∨ c ∈ (" ".data : Str) := by
    intro c hc
    unfold gitHeader at hc
    rw [List.append_assoc, List.append_assoc] at hc
    rcases List.mem_append.mp hc with hc | hc
    · have hall : ∀ x ∈ ("diff --git a/".data : Str),
          pyIsSpace x = false ∨ x ∈ (" ".data : Str) := by decide
      exact hall c hc
    · rcases List.mem_append.mp hc with hc | hc
      · exact Or.inl (hOld c hc)
      · rcases List.mem_append.mp hc with hc | hc
        · have hall : ∀ x ∈ (" b/".data : Str),
              pyIsSpace x = false ∨ x ∈ (" ".data : Str) := by decide
          exact hall c hc
        · exact Or.inl (hNew c hc)
  have hnorm : normalize_diff (gitHeader old new) = gitHeader old new := by
    unfold normalize_diff
    rw [List.filter_eq_self]
    intro a ha
    rcases hmem a ha with h1 | h1
    · simp only [decide_eq_true_eq]
      intro he
      rw [he] at h1
      exact absurd h1 (by decide)
    · simp only [List.mem_cons, List.not_mem_nil, or_false] at h1
      rw [h1]
      decide
  have hsplit : splitLines (gitHeader old new) = [gitHeader old new] := by
    apply splitLines_no_newline
    intro c hc
    rcases hmem c hc with h1 | h1
    · intro he
      rw [he] at h1
      exact absurd h1 (by decide)
    · simp only [List.mem_cons, List.not_mem_nil, or_false] at h1
      rw [h1]
      decide
  have hpre : ("diff --git ".data : Str).isPrefixOf (gitHeader old new) = true := by
    have : gitHeader old new =
        "diff --git ".data ++ ('a' :: '/' :: (old ++ " b/".data ++ new)) := by
      unfold gitHeader
      simp [List.append_assoc]
    rw [this]
    exact isPrefixOf_append_self _ _
  unfold parse_diff
  rw [hnorm, hsplit]
  simp only [List.foldl]
  unfold pdStep
  rw [if_pos hpre, hfind]
  show (match (⟨pdFlush ⟨[], Option.none, []⟩, some new, [gitHeader old new]⟩ :
      PDState).cur with
    | some f =>
        if f ≠ [] ∧ ([gitHeader old new] : List Str) ≠ [] then
          dset (pdFlush ⟨[], Option.none, []⟩) f
            (pyJoin ['\n'] [gitHeader old new])
        else pdFlush ⟨[], Option.none, []⟩
    | Option.none => pdFlush ⟨[], Option.none, []⟩) = [(new, gitHeader old new)]
  dsimp only
  rw [if_pos ⟨hne, by simp⟩]
  rfl

/-- Witness for C6 at the concrete rename header. -/
theorem c6_parse_diff_witness :
    findB (gitHeader "src/Old.kt".data "web/src/New.kt".data) =
      some "web/src/New.kt".data ∧
    parse_diff (gitHeader "src/Old.kt".data "web/src/New.kt".data) =
      [("web/src/New.kt".data,
        gitHeader "src/Old.kt".data "web/src/New.kt".data)] :=
  c6_parse_diff_keyed_by_destination.1 "src/Old.kt".data "web/src/New.kt".data
    (by decide) (by decide) (by decide)

theorem matchPath_eq_specAmended (parsed : PyDict Str) (fp : Str) :
    matchPath parsed fp = specMatchAmended parsed fp := by
  unfold matchPath specMatchAmended
  have hfun : (fun dp => suffixCand fp dp) = (fun dp => looseSuffix fp dp) := rfl
  by_cases hd : dmem parsed fp = true
  · rw [if_pos hd, if_pos hd]
  · rw [if_neg hd, if_neg hd, ← hfun]
    dsimp only
    cases hq : (parsed.map Prod.fst).filter (fun dp => suffixCand fp dp) with
    | nil =>
        dsimp only
        simp only [List.length_nil]
        rw [if_neg (by omega), if_neg (by omega)]
        cases hbm : (parsed.map Prod.fst).filter
            (fun dp => decide (pyBasename dp = pyBasename fp)) with
        | nil =>
            dsimp only
            simp only [List.length_nil]
            rw [if_neg (by omega)]
        | cons a tail =>
            cases tail with
            | nil =>
                dsimp only
                norm_num
            | cons b tail2 =>
                dsimp only
                simp only [List.length_cons]
                rw [if_neg (by omega)]
    | cons a tail =>
        cases tail with
        | nil => simp [hq]
        | cons b tail2 => simp [hq]

/-- C3 counterexample: requesting `c/Main.tsx` against diff paths
`web/src/Main.tsx` and `x/Main.tsx` is resolved by the code's plain
string-suffix stage to the `web/src/Main.tsx` section, while the claim's
strict rules (component-aligned suffix, then unique basename — here
ambiguous) yield the empty result. -/
theorem c3_counterexample :
    filter_diff_for_files pathDiffC ["c/Main.tsx".data] =
      "diff --git a/web/src/Main.tsx b/web/src/Main.tsx\n+a".data ∧
    specFilterClaim pathDiffC ["c/Main.tsx".data] = [] ∧
    filter_diff_for_files pathDiffC ["c/Main.tsx".data] ≠
      specFilterClaim pathDiffC ["c/Main.tsx".data] := by decide

/-- C3 (amended): path resolution is exact match first; then the suffix
stage, whose candidates are path-suffixes either component-aligned or plain
string suffixes when one of the paths contains a slash, taken only when
unique — two or more candidates yield no section and the basename stage is
not consulted; then a unique basename match.  The claim's two concrete
examples hold: `web/src/components/Main.tsx` resolves to the
`src/components/Main.tsx` section, and `src/Main.tsx` against
`web/src/Main.tsx` and `app/src/Main.tsx` yields the empty result. -/
theorem c3_path_resolution_amended :
    (∀ (parsed : PyDict Str) (fp : Str),
      matchPath parsed fp = specMatchAmended parsed fp) ∧
    filter_diff_for_files pathDiffA ["web/src/components/Main.tsx".data] =
      "diff --git a/src/components/Main.tsx b/src/components/Main.tsx\n+hello".data ∧
    filter_diff_for_files pathDiffB ["src/Main.tsx".data] = [] :=
  ⟨matchPath_eq_specAmended, by decide, by decide⟩

theorem dget_dset_self {β : Type} (d : PyDict β) (k : Str) (v : β) :
    dget (dset d k v) k = some v := by
  induction d with
  | nil => simp [dset, dget]
  | cons p rest ih =>
      by_cases hp : p.1 = k
      · cases p with
        | mk pk pv =>
            simp only at hp
            simp [dset, hp, dget]
      · cases p with
        | mk pk pv =>
            simp only at hp
            simp [dset, hp, dget, ih]

theorem dget_dAppend_ne (d : PyDict (List Int)) (f g : Str) (n : Int)
    (h : f ≠ g) : dget (dAppend d f n) g = dget d g := by
  unfold dAppend
  cases dget d f <;> exact dget_dset_ne _ _ _ _ h

theorem dAppend_len_self (d : PyDict (List Int)) (f : Str) (n : Int) :
    ((dget (dAppend d f n) f).getD []).length =
      ((dget d f).getD []).length + 1 := by
  unfold dAppend
  cases hd : dget d f with
  | none => rw [dget_dset_self]; simp [hd]
  | some l => rw [dget_dset_self]; simp [hd]

theorem tagStep_sync (s : ECLState) (l : Str) :
    tagStep ⟨s.cur, s.inHunk⟩ l = ⟨(eclStep s l).cur, (eclStep s l).inHunk⟩ := by
  obtain ⟨sd, sc, sl, sh⟩ := s
  unfold tagStep eclStep
  dsimp only
  by_cases h1 : ("+++ b/".data.isPrefixOf l) = true
  · rw [if_pos h1, if_pos h1]
  · rw [if_neg h1, if_neg h1]
    cases hpn : parseHunkNew l with
    | some n =>
        cases sc with
        | none => simp [curTruthy]
        | some cf =>
            cases hct : curTruthy (some cf) with
            | true => simp [hct]
            | false =>
                simp only [hct, Option.isSome_some, Bool.true_and]
                rw [if_neg (by simp)]
                simp
    | none =>
        cases sc with
        | none => simp [curTruthy]
        | some cf =>
            simp only [Option.isSome_none, Bool.false_and]
            rw [if_neg (by simp)]
            by_cases hh : (sh && curTruthy (some cf)) = true
            · by_cases hp : ("+".data.isPrefixOf l && !"+++".data.isPrefixOf l) = true
              · simp [hh, hp]
              · by_cases hsp : (" ".data.isPrefixOf l) = true
                · simp [hh, hp, hsp]
                · by_cases hm : ("-".data.isPrefixOf l) = true
                  · simp [hh, hp, hsp, hm]
                  · by_cases ho : (!l.isEmpty && !"\\".data.isPrefixOf l) = true
                    · simp [hh, hp, hsp, hm, ho]
                    · simp [hh, hp, hsp, hm, ho]
            · simp [hh]

theorem headerFiles_cons_header (l : Str) (rest : List Str)
    (h : ("+++ b/".data.isPrefixOf l) = true) :
    headerFiles (l :: rest) = firstToken (l.drop 6) :: headerFiles rest := by
  unfold headerFiles
  rw [List.filterMap_cons, if_pos h]

theorem headerFiles_cons_other (l : Str) (rest : List Str)
    (h : ¬("+++ b/".data.isPrefixOf l) = true) :
    headerFiles (l :: rest) = headerFiles rest := by
  unfold headerFiles
  rw [List.filterMap_cons, if_neg h]

theorem hunkBodyTags_cons (st : TagState) (l : Str) (rest : List Str) :
    hunkBodyTags st (l :: rest) =
      (match tagOut st l with
       | some t => [t]
       | Option.none => []) ++ hunkBodyTags (tagStep st l) rest := rfl

theorem ecl_count_inv (lines : List Str) :
    ∀ (sd : PyDict (List Int)) (sc : Option Str) (sl : Int) (sh : Bool),
    (headerFiles lines).Nodup →
    (∀ g ∈ headerFiles lines, dget sd g = Option.none) →
    (∀ f', sc = some f' → f' ∉ headerFiles lines) →
    ∀ f, ((dget ((lines.foldl eclStep ⟨sd, sc, sl, sh⟩).dict) f).getD []).length =
      ((dget sd f).getD []).length +
        (hunkBodyTags ⟨sc, sh⟩ lines).countP (fun t => decide (t.1 = f)) := by
  induction lines with
  | nil =>
      intro sd sc sl sh _ _ _ f
      simp [hunkBodyTags]
  | cons l rest ih =>
      intro sd sc sl sh hnd hdict hcur f
      rw [List.foldl_cons, hunkBodyTags_cons, List.countP_append]
      have hsync := tagStep_sync ⟨sd, sc, sl, sh⟩ l
      by_cases h1 : ("+++ b/".data.isPrefixOf l) = true
      case pos =>
        have hstep : eclStep ⟨sd, sc, sl, sh⟩ l =
            ⟨dset sd (firstToken (l.drop 6)) [], some (firstToken (l.drop 6)),
              sl, false⟩ := by
          unfold eclStep
          rw [if_pos h1]
        have hhf := headerFiles_cons_header l rest h1
        rw [hhf] at hnd hdict hcur
        have hnd' := (List.nodup_cons.mp hnd).2
        have hftnot := (List.nodup_cons.mp hnd).1
        have htagout : tagOut ⟨sc, sh⟩ l = Option.none := by
          unfold tagOut
          rw [if_pos h1]
        rw [htagout, hsync, hstep]
        dsimp only
        rw [ih (dset sd (firstToken (l.drop 6)) [])
          (some (firstToken (l.drop 6))) sl false hnd'
          (fun g hg => by
            rw [dget_dset_ne _ _ _ _ (fun he => hftnot (by rw [he]; exact hg))]
            exact hdict g (List.mem_cons_of_mem _ hg))
          (fun f' hf' => by
            injection hf' with hf'
            rw [← hf']
            exact hftnot) f]
        simp only [List.countP_nil]
        by_cases hf : firstToken (l.drop 6) = f
        · rw [← hf, dget_dset_self]
          rw [hdict (firstToken (l.drop 6)) (List.mem_cons_self _ _)]
          simp
        · rw [dget_dset_ne _ _ _ _ hf]
          omega
      case neg =>
        have hhf := headerFiles_cons_other l rest h1
        rw [hhf] at hnd hdict hcur
        have hIH := fun (sd' : PyDict (List Int)) (sc' : Option Str)
            (sl' : Int) (sh' : Bool)
            (h2 : ∀ g ∈ headerFiles rest, dget sd' g = Option.none)
            (h3 : ∀ f', sc' = some f' → f' ∉ headerFiles rest) =>
          ih sd' sc' sl' sh' hnd h2 h3 f
        cases sc with
        | none =>
            have hstep : eclStep ⟨sd, Option.none, sl, sh⟩ l =
                ⟨sd, Option.none, sl, sh⟩ := by
              unfold eclStep
              rw [if_neg h1]
              cases hpn : parseHunkNew l <;> simp [curTruthy]
            have htagout : tagOut ⟨(Option.none : Option Str), sh⟩ l =
                Option.none := by
              unfold tagOut
              rw [if_neg h1]
              simp [curTruthy]
            rw [htagout, hsync, hstep]
            dsimp only
            rw [hIH sd Option.none sl sh hdict (fun f' hf' => by cases hf')]
            simp
        | some cf =>
            cases hpn : parseHunkNew l with
            | some n =>
                cases hct : curTruthy (some cf) with
                | true =>
                    have hstep : eclStep ⟨sd, some cf, sl, sh⟩ l =
                        ⟨sd, some cf, n, true⟩ := by
                      unfold eclStep
                      rw [if_neg h1, hpn, hct]
                    have htagout : tagOut ⟨some cf, sh⟩ l = Option.none := by
                      unfold tagOut
                      rw [if_neg h1, hpn, hct]
                      simp
                    rw [htagout, hsync, hstep]
                    dsimp only
                    rw [hIH sd (some cf) n true hdict hcur]
                    simp
                | false =>
                    have hstep : eclStep ⟨sd, some cf, sl, sh⟩ l =
                        ⟨sd, some cf, sl, sh⟩ := by
                      unfold eclStep
                      rw [if_neg h1, hpn, hct]
                      simp [hct]
                    have htagout : tagOut ⟨some cf, sh⟩ l = Option.none := by
                      unfold tagOut
                      rw [if_neg h1, hpn, hct]
                      simp [hct]
                    rw [htagout, hsync, hstep]
                    dsimp only
                    rw [hIH sd (some cf) sl sh hdict hcur]
                    simp
            | none =>
                have hiso : (parseHunkNew l).isSome = false := by
                  rw [hpn]
                  rfl
                by_cases hh : (sh && curTruthy (some cf)) = true
                case neg =>
                  have hstep : eclStep ⟨sd, some cf, sl, sh⟩ l =
                      ⟨sd, some cf, sl, sh⟩ := by
                    unfold eclStep
                    rw [if_neg h1, hpn]
                    dsimp only
                    rw [if_neg hh]
                  have htagout : tagOut ⟨some cf, sh⟩ l = Option.none := by
                    unfold tagOut
                    rw [if_neg h1, hiso]
                    rw [if_neg (by simp)]
                    dsimp only
                    rw [if_neg (fun hcc => hh (Bool.and_eq_true_iff.mp hcc).1)]
                  rw [htagout, hsync, hstep]
                  dsimp only
                  rw [hIH sd (some cf) sl sh hdict hcur]
                  simp
                case pos =>
                  have hcfnot : cf ∉ headerFiles rest := hcur cf rfl
                  by_cases hbody : (("+".data.isPrefixOf l &&
                      !"+++".data.isPrefixOf l) || " ".data.isPrefixOf l) = true
                  case pos =>
                    have hstep : eclStep ⟨sd, some cf, sl, sh⟩ l =
                        ⟨dAppend sd cf sl, some cf, sl + 1, sh⟩ := by
                      unfold eclStep
                      rw [if_neg h1, hpn]
                      dsimp only
                      rw [if_pos hh]
                      cases hA : ("+".data.isPrefixOf l &&
                          !"+++".data.isPrefixOf l) with
                      | true => rw [if_pos rfl]
                      | false =>
                          rw [hA] at hbody
                          simp only [Bool.false_or] at hbody
                          rw [if_neg (by simp), if_pos hbody]
                    have htagout : tagOut ⟨some cf, sh⟩ l = some (cf, l) := by
                      unfold tagOut
                      rw [if_neg h1, hiso]
                      rw [if_neg (by simp)]
                      dsimp only
                      rw [if_pos (Bool.and_eq_true_iff.mpr ⟨hh, hbody⟩)]
                    rw [htagout, hsync, hstep]
                    dsimp only
                    rw [hIH (dAppend sd cf sl) (some cf) (sl + 1) sh
                      (fun g hg => by
                        rw [dget_dAppend_ne _ _ _ _ (fun he => hcfnot (by rw [he]; exact hg))]
                        exact hdict g hg) hcur]
                    simp only [List.countP_cons, List.countP_nil]
                    by_cases hf : cf = f
                    · rw [← hf, dAppend_len_self]
                      simp
                      omega
                    · rw [dget_dAppend_ne _ _ _ _ hf]
                      simp [hf]
                  case neg =>
                    have hp : ¬("+".data.isPrefixOf l &&
                        !"+++".data.isPrefixOf l) = true :=
                      fun hc => hbody (Bool.or_eq_true_iff.mpr (Or.inl hc))
                    have hsp : ¬(" ".data.isPrefixOf l) = true :=
                      fun hc => hbody (Bool.or_eq_true_iff.mpr (Or.inr hc))
                    have htagout : tagOut ⟨some cf, sh⟩ l = Option.none := by
                      unfold tagOut
                      rw [if_neg h1, hiso]
                      rw [if_neg (by simp)]
                      dsimp only
                      rw [if_neg (fun hcc => hbody
                        (Bool.and_eq_true_iff.mp hcc).2)]
                    have hdicteq : (eclStep ⟨sd, some cf, sl, sh⟩ l).dict = sd ∧
                        (eclStep ⟨sd, some cf, sl, sh⟩ l).cur = some cf ∧
                        (eclStep ⟨sd, some cf, sl, sh⟩ l).line = sl := by
                      unfold eclStep
                      rw [if_neg h1, hpn]
                      dsimp only
                      rw [if_pos hh, if_neg hp, if_neg hsp]
                      by_cases hm : ("-".data.isPrefixOf l) = true
                      · rw [if_pos hm]
                        exact ⟨rfl, rfl, rfl⟩
                      · rw [if_neg hm]
                        by_cases ho : (!l.isEmpty && !"\\".data.isPrefixOf l) = true
                        · rw [if_pos ho]
                          exact ⟨rfl, rfl, rfl⟩
                        · rw [if_neg ho]
                          exact ⟨rfl, rfl, rfl⟩
                    rw [htagout, hsync]
                    have hrepr : eclStep ⟨sd, some cf, sl, sh⟩ l =
                        ⟨sd, some cf, sl, (eclStep ⟨sd, some cf, sl, sh⟩ l).inHunk⟩ := by
                      obtain ⟨e1, e2, e3⟩ := hdicteq
                      cases hE : eclStep ⟨sd, some cf, sl, sh⟩ l with
                      | mk d c ln ih2 =>
                          rw [hE] at e1 e2 e3
                          dsimp only at e1 e2 e3
                          rw [e1, e2, e3]
                    rw [hrepr]
                    dsimp only
                    rw [hIH sd (some cf) sl
                      (eclStep ⟨sd, some cf, sl, sh⟩ l).inHunk hdict hcur]
                    simp

theorem eclStep_minus (s : ECLState) (l : Str)
    (h : ("-".data.isPrefixOf l) = true) : eclStep s l = s := by
  cases l with
  | nil => cases h
  | cons c t =>
      have hc : c = '-' := by
        simp [List.isPrefixOf] at h
        exact h.symm
      subst hc
      obtain ⟨sd, sc, sl2, sh⟩ := s
      unfold eclStep
      rw [if_neg (by simp [List.isPrefixOf])]
      have hpn : parseHunkNew ('-' :: t) = Option.none := rfl
      rw [hpn]
      cases sc with
      | none => rfl
      | some cf =>
          dsimp only
          by_cases hh : (sh && curTruthy (some cf)) = true
          · rw [if_pos hh]
            rw [if_neg (by simp [List.isPrefixOf]),
              if_neg (by simp [List.isPrefixOf]),
              if_pos (by simp [List.isPrefixOf])]
          · rw [if_neg hh]

/-- C5 counterexample: in a hunk adding `int x;` and then a line whose
content begins `++` (raw body line `+++y;`), the code counts one commentable
line for `f.c`, while the claim's counting rule — every hunk-body line
starting with `+` other than the `+++ b/` file marker counts — yields two. -/
theorem c5_counterexample :
    dget (extract_commentable_lines plusDiff) "f.c".data = some [1] ∧
    (claimBodyTags ⟨Option.none, false⟩
      (splitLines (normalize_diff plusDiff))).countP
        (fun t => decide (t.1 = "f.c".data)) = 2 ∧
    (1 : Nat) ≠ 2 := by decide

/-- C5 (amended): for every diff whose lines are well-formed (valid hunk
headers, non-blank and pairwise-distinct file headers), the number of
commentable line numbers recorded for a file equals the number of its
hunk-body lines starting with `+` — excluding every line starting `+++`,
not only the file marker — plus those starting with a space; and a body
line starting with `-` leaves the whole machine state (including the
new-file line counter) unchanged. -/
theorem c5_commentable_count_amended :
    (∀ (text : Str) (f : Str) (lns : List Int),
      WFDiffLines (splitLines (normalize_diff text)) →
      dget (extract_commentable_lines text) f = some lns →
      lns.length = (hunkBodyTags ⟨Option.none, false⟩
        (splitLines (normalize_diff text))).countP
          (fun t => decide (t.1 = f))) ∧
    (∀ (s : ECLState) (l : Str), ("-".data.isPrefixOf l) = true →
      eclStep s l = s) := by
  constructor
  · intro text f lns hwf hget
    have hinv := ecl_count_inv (splitLines (normalize_diff text)) []
      Option.none 0 false hwf.2.2
      (fun g _ => rfl) (fun f' hf' => by cases hf') f
    unfold extract_commentable_lines at hget
    rw [hget] at hinv
    simpa [dget] using hinv
  · exact eclStep_minus

/-- Witness for the amended C5 count at the concrete `valDiff`. -/
theorem c5_commentable_count_witness :
    ([10, 11, 12] : List Int).length =
      (hunkBodyTags ⟨Option.none, false⟩
        (splitLines (normalize_diff valDiff))).countP
          (fun t => decide (t.1 = "Form.kt".data)) :=
  c5_commentable_count_amended.1 valDiff "Form.kt".data [10, 11, 12]
    (by constructor
        · decide
        · constructor
          · decide
          · decide)
    (by decide)

theorem mem_iset (m : LineTexts) (n : Int) (v : Str) (p : Int × Str)
    (h : p ∈ iset m n v) : p ∈ m ∨ p = (n, v) := by
  induction m with
  | nil =>
      simp [iset] at h
      exact Or.inr h
  | cons q rest ih =>
      cases q with
      | mk qk qv =>
          by_cases hq : qk = n
          · simp only [iset, if_pos hq] at h
            rcases List.mem_cons.mp h with h1 | h1
            · exact Or.inr h1
            · exact Or.inl (List.mem_cons_of_mem _ h1)
          · simp only [iset, if_neg hq] at h
            rcases List.mem_cons.mp h with h1 | h1
            · exact Or.inl (h1 ▸ List.mem_cons_self _ _)
            · rcases ih h1 with h2 | h2
              · exact Or.inl (List.mem_cons_of_mem _ h2)
              · exact Or.inr h2

theorem ectStore_inv (cl : PyDict (List Int)) (res : PyDict LineTexts)
    (f : Str) (n : Int) (txt : Str)
    (hres : ∀ g m, dget res g = some m → ∀ p ∈ m, p.1 ∈ (dget cl g).getD [])
    (hn : n ∈ (dget cl f).getD []) :
    ∀ g m, dget (ectStore res f n txt) g = some m →
      ∀ p ∈ m, p.1 ∈ (dget cl g).getD [] := by
  intro g m hm p hp
  unfold ectStore at hm
  by_cases hg : f = g
  · subst hg
    cases hf : dget res f with
    | none =>
        rw [hf, dget_dset_self] at hm
        injection hm with hm
        rw [← hm] at hp
        rw [List.mem_singleton.mp hp]
        exact hn
    | some m0 =>
        rw [hf, dget_dset_self] at hm
        injection hm with hm
        rw [← hm] at hp
        rcases mem_iset m0 n txt p hp with h1 | h1
        · exact hres f m0 hf p h1
        · rw [h1]
          exact hn
  · cases hf : dget res f with
    | none =>
        rw [hf, dget_dset_ne _ _ _ _ hg] at hm
        exact hres g m hm p hp
    | some m0 =>
        rw [hf, dget_dset_ne _ _ _ _ hg] at hm
        exact hres g m hm p hp

theorem dsetNil_inv (cl : PyDict (List Int)) (res : PyDict LineTexts) (f : Str)
    (hres : ∀ g m, dget res g = some m → ∀ p ∈ m, p.1 ∈ (dget cl g).getD []) :
    ∀ g m, dget (dset res f []) g = some m →
      ∀ p ∈ m, p.1 ∈ (dget cl g).getD [] := by
  intro g m hm p hp
  by_cases hg : f = g
  · subst hg
    rw [dget_dset_self] at hm
    injection hm with hm
    rw [← hm] at hp
    cases hp
  · rw [dget_dset_ne _ _ _ _ hg] at hm
    exact hres g m hm p hp

theorem ectStep_res_cases (cl : PyDict (List Int)) (s : ECTState) (l : Str) :
    (ectStep cl s l).res = s.res ∨
    (∃ f, (ectStep cl s l).res = dset s.res f []) ∨
    (∃ f n txt, n ∈ (dget cl f).getD [] ∧
      (ectStep cl s l).res = ectStore s.res f n txt) := by
  obtain ⟨res, sc, sl, sh⟩ := s
  unfold ectStep
  dsimp only
  repeat' split
  all_goals
    first
    | exact Or.inl rfl
    | exact Or.inr (Or.inl ⟨_, rfl⟩)
    | exact Or.inr (Or.inr ⟨_, _, _, by assumption, rfl⟩)

theorem ect_texts_sub (text : Str) (cl : PyDict (List Int)) :
    ∀ f m, dget (extract_commentable_line_texts text cl) f = some m →
      ∀ p ∈ m, p.1 ∈ (dget cl f).getD [] := by
  unfold extract_commentable_line_texts
  suffices H : ∀ (lines : List Str) (s : ECTState),
      (∀ g m, dget s.res g = some m → ∀ p ∈ m, p.1 ∈ (dget cl g).getD []) →
      ∀ g m, dget ((lines.foldl (ectStep cl) s).res) g = some m →
        ∀ p ∈ m, p.1 ∈ (dget cl g).getD [] by
    exact H (splitLines text) ⟨[], Option.none, 0, false⟩
      (fun g m hm => by cases hm)
  intro lines
  induction lines with
  | nil => intro s hs; exact hs
  | cons l rest ih =>
      intro s hs
      rw [List.foldl_cons]
      apply ih
      rcases ectStep_res_cases cl s l with h1 | ⟨f, h1⟩ | ⟨f, n, txt, hn, h1⟩
      · rw [h1]
        exact hs
      · rw [h1]
        exact dsetNil_inv cl s.res f hs
      · rw [h1]
        exact ectStore_inv cl s.res f n txt hs hn

theorem resolve_filterMap_mem (o : ReOracle) (rlt : LineTexts)
    (cands : List Str) (m : Int × Str × Str)
    (hm : m ∈ rlt.filterMap
      (fun p => if p.2 = [] then Option.none
        else (firstCand o cands p.2).map (fun c => (p.1, pyStrip p.2, c)))) :
    ∃ s, (m.1, s) ∈ rlt := by
  rcases List.mem_filterMap.mp hm with ⟨p, hp, hfp⟩
  by_cases hz : p.2 = []
  · rw [if_pos hz] at hfp
    cases hfp
  · rw [if_neg hz] at hfp
    cases hfc : firstCand o cands p.2 with
    | none => rw [hfc] at hfp; cases hfp
    | some c =>
        rw [hfc] at hfp
        injection hfp with hfp
        refine ⟨p.2, ?_⟩
        rw [← hfp]
        exact hp

theorem chooseMatch_mem (issue : Issue) (fb : Option Int)
    (ms : List (Int × Str × Str)) (n : Int) (t : Option Str)
    (h : chooseMatch issue fb ms = (some n, t)) : ∃ m ∈ ms, m.1 = n := by
  match ms, h with
  | [], h => cases h
  | [m], h =>
      injection h with h1 h2
      injection h1 with h1
      exact ⟨m, List.mem_cons_self m [], h1⟩
  | m1 :: m2 :: tl, h =>
      unfold chooseMatch at h
      dsimp only at h
      repeat' split at h
      all_goals try cases h
      all_goals
        (rename_i m hpick
         exact ⟨m, pickMinBy_mem _ _ _ hpick, rfl⟩)

theorem resolve_anchor_line_mem (o : ReOracle) (issue : Issue)
    (rlt : LineTexts) (fb : Option Int) (ext : Option Str) (n : Int)
    (t : Option Str) (h : resolve_anchor_line o issue rlt fb ext = (some n, t)) :
    ∃ s, (n, s) ∈ rlt := by
  unfold resolve_anchor_line at h
  split at h
  · cases h
  · split at h
    · cases h
    · rcases chooseMatch_mem _ _ _ _ _ h with ⟨m, hm, hmn⟩
      rcases resolve_filterMap_mem o rlt _ m hm with ⟨s, hs⟩
      exact ⟨s, hmn ▸ hs⟩

theorem find_nearest_commentable_line_mem (target : Int) (ls : List Int)
    (maxd : Int) (m : Int)
    (h : find_nearest_commentable_line target ls maxd = some m) : m ∈ ls := by
  unfold find_nearest_commentable_line at h
  split at h
  · cases h
  · split at h
    · injection h with h1
      rename_i hmem
      rw [← h1]
      exact hmem
    · suffices H : ∀ (acc : Option (Int × Int)),
          (∀ q, acc = some q → q.2 ∈ ls) →
          (ls.foldl
            (fun best l =>
              match best with
              | Option.none =>
                  if |l - target| ≤ maxd then some (|l - target|, l)
                  else Option.none
              | some (md, b) =>
                  if |l - target| < md ∧ |l - target| ≤ maxd then
                    some (|l - target|, l)
                  else some (md, b)) acc).map Prod.snd = some m → m ∈ ls by
        exact H Option.none (fun q hq => by cases hq) h
      have H2 : ∀ (l2 : List Int) (hsub : ∀ x ∈ l2, x ∈ ls)
          (acc : Option (Int × Int)), (∀ q, acc = some q → q.2 ∈ ls) →
          (l2.foldl
            (fun best l =>
              match best with
              | Option.none =>
                  if |l - target| ≤ maxd then some (|l - target|, l)
                  else Option.none
              | some (md, b) =>
                  if |l - target| < md ∧ |l - target| ≤ maxd then
                    some (|l - target|, l)
                  else some (md, b)) acc).map Prod.snd = some m → m ∈ ls := by
        intro l2
        induction l2 with
        | nil =>
            intro _ acc hacc hfold
            cases hq : acc with
            | none => rw [hq] at hfold; cases hfold
            | some q =>
                rw [hq] at hfold
                injection hfold with h2
                exact h2 ▸ hacc q hq
        | cons x rest ih =>
            intro hsub acc hacc hfold
            rw [List.foldl_cons] at hfold
            refine ih (fun y hy => hsub y (List.mem_cons_of_mem _ hy)) _ ?_ hfold
            intro q hq
            cases hacc0 : acc with
            | none =>
                rw [hacc0] at hq
                dsimp only at hq
                split at hq
                · injection hq with hq
                  rw [← hq]
                  exact hsub x (List.mem_cons_self x rest)
                · cases hq
            | some p =>
                rw [hacc0] at hq
                obtain ⟨pd, pb⟩ := p
                dsimp only at hq
                split at hq
                · injection hq with hq
                  rw [← hq]
                  exact hsub x (List.mem_cons_self x rest)
                · injection hq with hq
                  rw [← hq]
                  exact hacc (pd, pb) hacc0
      exact H2 ls (fun x hx => hx)

theorem getStrD_dset_ne (d : Issue) (k k' : Str) (v : PyVal)
    (h : k' ≠ k) : getStrD (dset d k' v) k = getStrD d k := by
  unfold getStrD
  rw [dget_dset_ne _ _ _ _ h]

theorem getIntD_dset_ne (d : Issue) (k k' : Str) (v : PyVal)
    (h : k' ≠ k) : getIntD (dset d k' v) k = getIntD d k := by
  unfold getIntD
  rw [dget_dset_ne _ _ _ _ h]

theorem getIntD_dset_int (d : Issue) (k : Str) (n : Int) :
    getIntD (dset d k (PyVal.int n)) k = n := by
  unfold getIntD
  rw [dget_dset_self]

theorem processOne_kept (o : ReOracle) (batch : List Str)
    (cl : PyDict (List Int)) (lt : PyDict LineTexts) (diffT : Bool)
    (issue v : Issue) (ds : List DropRec)
    (hlt : ∀ f m, dget lt f = some m → ∀ p ∈ m, p.1 ∈ (dget cl f).getD [])
    (h : processOne o batch cl lt diffT issue = (some v, ds)) :
    getStrD v "file".data ∈ batch ∧
    getIntD v "line".data ∈ (dget cl (getStrD v "file".data)).getD [] := by
  unfold processOne at h
  dsimp only at h
  by_cases h1 : getStrD issue "file".data ∈ batch
  · rw [if_neg (not_not_intro h1)] at h
    by_cases h2 : getIntD issue "line".data ≤ 0
    · rw [if_pos h2] at h
      cases h
    · rw [if_neg h2] at h
      by_cases h3 : (dget cl (getStrD issue "file".data)).getD [] = []
      · rw [if_pos h3] at h
        cases h
      · rw [if_neg h3] at h
        by_cases h4 : getIntD issue "line".data ∈
            (dget cl (getStrD issue "file".data)).getD []
        · rw [if_pos h4] at h
          cases h
          exact ⟨h1, h4⟩
        · rw [if_neg h4] at h
          by_cases h5 : (diffT && dmem lt (getStrD issue "file".data)) = true
          · rw [if_pos h5] at h
            by_cases h6 : (resolve_anchor_line o issue
                ((dget lt (getStrD issue "file".data)).getD [])
                (some (getIntD issue "line".data))
                (some (pathSuffix (getStrD issue "file".data)))).1.getD 0 ≠ 0
            · rw [if_pos h6] at h
              cases hr1 : (resolve_anchor_line o issue
                  ((dget lt (getStrD issue "file".data)).getD [])
                  (some (getIntD issue "line".data))
                  (some (pathSuffix (getStrD issue "file".data)))).1 with
              | none => rw [hr1] at h6; simp at h6
              | some rn =>
                  rw [hr1] at h
                  have hpair : resolve_anchor_line o issue
                      ((dget lt (getStrD issue "file".data)).getD [])
                      (some (getIntD issue "line".data))
                      (some (pathSuffix (getStrD issue "file".data))) =
                      (some rn, (resolve_anchor_line o issue
                        ((dget lt (getStrD issue "file".data)).getD [])
                        (some (getIntD issue "line".data))
                        (some (pathSuffix (getStrD issue "file".data)))).2) := by
                    rw [← hr1]
                  rcases resolve_anchor_line_mem _ _ _ _ _ _ _ hpair
                    with ⟨s, hs⟩
                  have hdmem : dmem lt (getStrD issue "file".data) = true :=
                    (Bool.and_eq_true_iff.mp h5).2
                  unfold dmem at hdmem
                  rcases Option.isSome_iff_exists.mp hdmem with ⟨mm, hmm⟩
                  rw [hmm] at hs
                  simp only [Option.getD_some] at hs
                  have hline := hlt _ mm hmm (rn, s) hs
                  cases h
                  refine ⟨?_, ?_⟩
                  · rw [getStrD_dset_ne _ _ _ _ (by decide),
                      getStrD_dset_ne _ _ _ _ (by decide)]
                    exact h1
                  · rw [getStrD_dset_ne _ _ _ _ (by decide),
                      getStrD_dset_ne _ _ _ _ (by decide),
                      getIntD_dset_ne _ _ _ _ (by decide),
                      getIntD_dset_int]
                    simpa using hline
            · rw [if_neg h6] at h
              by_cases h7 : (find_nearest_commentable_line
                  (getIntD issue "line".data)
                  ((dget cl (getStrD issue "file".data)).getD []) 10).getD 0 ≠ 0
              · rw [if_pos h7] at h
                cases hn1 : find_nearest_commentable_line
                    (getIntD issue "line".data)
                    ((dget cl (getStrD issue "file".data)).getD []) 10 with
                | none => rw [hn1] at h7; simp at h7
                | some nn =>
                    rw [hn1] at h
                    have hmemn := find_nearest_commentable_line_mem _ _ _ _ hn1
                    cases h
                    refine ⟨?_, ?_⟩
                    · rw [getStrD_dset_ne _ _ _ _ (by decide)]
                      exact h1
                    · rw [getStrD_dset_ne _ _ _ _ (by decide),
                        getIntD_dset_int]
                      simpa using hmemn
              · rw [if_neg h7] at h
                cases h
          · rw [if_neg h5] at h
            rw [if_neg (by simp)] at h
            by_cases h7 : (find_nearest_commentable_line
                (getIntD issue "line".data)
                ((dget cl (getStrD issue "file".data)).getD []) 10).getD 0 ≠ 0
            · rw [if_pos h7] at h
              cases hn1 : find_nearest_commentable_line
                  (getIntD issue "line".data)
                  ((dget cl (getStrD issue "file".data)).getD []) 10 with
              | none => rw [hn1] at h7; simp at h7
              | some nn =>
                  rw [hn1] at h
                  have hmemn := find_nearest_commentable_line_mem _ _ _ _ hn1
                  cases h
                  refine ⟨?_, ?_⟩
                  · rw [getStrD_dset_ne _ _ _ _ (by decide)]
                    exact h1
                  · rw [getStrD_dset_ne _ _ _ _ (by decide),
                      getIntD_dset_int]
                    simpa using hmemn
            · rw [if_neg h7] at h
              cases h
  · rw [if_pos h1] at h
    cases h

theorem validateAux_kept (o : ReOracle) (batch : List Str)
    (cl : PyDict (List Int)) (lt : PyDict LineTexts) (diffT : Bool)
    (hlt : ∀ f m, dget lt f = some m → ∀ p ∈ m, p.1 ∈ (dget cl f).getD []) :
    ∀ issues v, v ∈ (validateAux o batch cl lt diffT issues).1 →
      getStrD v "file".data ∈ batch ∧
      getIntD v "line".data ∈ (dget cl (getStrD v "file".data)).getD [] := by
  intro issues
  induction issues with
  | nil => intro v hv; cases hv
  | cons i rest ih =>
      intro v hv
      unfold validateAux at hv
      dsimp only at hv
      cases hp : (processOne o batch cl lt diffT i).1 with
      | none =>
          rw [hp] at hv
          exact ih v hv
      | some x =>
          rw [hp] at hv
          rcases List.mem_cons.mp hv with hvx | hvt
          · subst hvx
            exact processOne_kept o batch cl lt diffT i v
              (processOne o batch cl lt diffT i).2 hlt
              (by rw [← hp])
          · exact ih v hvt

/-- C4: every issue kept by `validate_issues_in_batch` has its file in the
batch and its (possibly rewritten) line in that file's commentable-line
list; and an issue whose file is outside the batch, whose proposed line is
non-positive, or whose file has no commentable lines is dropped with the
recorded reason `file_not_in_batch`, `invalid_line_number`, or
`no_commentable_lines_for_file` respectively. -/
theorem c4_validation_scope_and_drop_reasons :
    (∀ (o : ReOracle) (issues : List Issue) (batch : List Str)
       (cl : PyDict (List Int)) (diff : Option Str) (v : Issue),
       v ∈ (validate_issues_in_batch o issues batch cl diff).1 →
       getStrD v "file".data ∈ batch ∧
       getIntD v "line".data ∈ (dget cl (getStrD v "file".data)).getD []) ∧
    (∀ (o : ReOracle) (batch : List Str) (cl : PyDict (List Int))
       (lt : PyDict LineTexts) (diffT : Bool) (issue : Issue),
       getStrD issue "file".data ∉ batch →
       processOne o batch cl lt diffT issue =
         (Option.none, [(getStrD issue "file".data,
           getIntD issue "line".data, "file_not_in_batch".data)])) ∧
    (∀ (o : ReOracle) (batch : List Str) (cl : PyDict (List Int))
       (lt : PyDict LineTexts) (diffT : Bool) (issue : Issue),
       getStrD issue "file".data ∈ batch →
       getIntD issue "line".data ≤ 0 →
       processOne o batch cl lt diffT issue =
         (Option.none, [(getStrD issue "file".data,
           getIntD issue "line".data, "invalid_line_number".data)])) ∧
    (∀ (o : ReOracle) (batch : List Str) (cl : PyDict (List Int))
       (lt : PyDict LineTexts) (diffT : Bool) (issue : Issue),
       getStrD issue "file".data ∈ batch →
       ¬ getIntD issue "line".data ≤ 0 →
       (dget cl (getStrD issue "file".data)).getD [] = [] →
       processOne o batch cl lt diffT issue =
         (Option.none, [(getStrD issue "file".data,
           getIntD issue "line".data,
           "no_commentable_lines_for_file".data)])) := by
  refine ⟨?_, ?_, ?_, ?_⟩
  · intro o issues batch cl diff v hv
    unfold validate_issues_in_batch at hv
    dsimp only at hv
    refine validateAux_kept o batch cl _ _ ?_ issues v hv
    cases diff with
    | none =>
        intro f m hm p hp
        dsimp only at hm
        rw [if_neg (by simp)] at hm
        simp [dget] at hm
    | some d =>
        intro f m hm p hp
        dsimp only at hm
        by_cases hd : (!d.isEmpty) = true
        · rw [if_pos hd] at hm
          exact ect_texts_sub ((some d).getD []) cl f m hm p hp
        · rw [if_neg hd] at hm
          simp [dget] at hm
  · intro o batch cl lt diffT issue h1
    unfold processOne
    dsimp only
    rw [if_pos h1]
  · intro o batch cl lt diffT issue h1 h2
    unfold processOne
    dsimp only
    rw [if_neg (not_not_intro h1), if_pos h2]
  · intro o batch cl lt diffT issue h1 h2 h3
    unfold processOne
    dsimp only
    rw [if_neg (not_not_intro h1), if_neg h2, if_pos h3]

/-- C4 witness: the invariant and each drop reason of
`c4_validation_scope_and_drop_reasons` exercised on concrete runs. -/
theorem c4_validation_witness :
    (getStrD valIssueAt10 "file".data ∈ (["Form.kt".data] : List Str) ∧
     getIntD valIssueAt10 "line".data ∈
       (dget [("Form.kt".data, ([10, 11, 12] : List Int))]
         (getStrD valIssueAt10 "file".data)).getD []) ∧
    processOne reNone ["Other.kt".data] [] [] false valIssueAt10 =
      (Option.none, [(getStrD valIssueAt10 "file".data,
        getIntD valIssueAt10 "line".data, "file_not_in_batch".data)]) ∧
    processOne reNone ["Form.kt".data] [] [] false
        (dset valIssueAt10 "line".data (PyVal.int 0)) =
      (Option.none,
       [(getStrD (dset valIssueAt10 "line".data (PyVal.int 0)) "file".data,
         getIntD (dset valIssueAt10 "line".data (PyVal.int 0)) "line".data,
         "invalid_line_number".data)]) ∧
    processOne reNone ["Form.kt".data] [] [] false valIssueAt10 =
      (Option.none, [(getStrD valIssueAt10 "file".data,
        getIntD valIssueAt10 "line".data,
        "no_commentable_lines_for_file".data)]) :=
  ⟨c4_validation_scope_and_drop_reasons.1 reNone [valIssueAt10]
     ["Form.kt".data] [("Form.kt".data, [10, 11, 12])] (some valDiff)
     valIssueAt10 (by decide),
   c4_validation_scope_and_drop_reasons.2.1 reNone ["Other.kt".data] [] []
     false valIssueAt10 (by decide),
   c4_validation_scope_and_drop_reasons.2.2.1 reNone ["Form.kt".data] [] []
     false (dset valIssueAt10 "line".data (PyVal.int 0)) (by decide)
     (by decide),
   c4_validation_scope_and_drop_reasons.2.2.2 reNone ["Form.kt".data] [] []
     false valIssueAt10 (by decide) (by decide) (by decide)⟩
